import Mathlib

/-!
Verification of the reconciliation-engine specification for the k8s module
(`src/plugins/modules/k8s.py`).  The module file itself holds the argument
spec, option defaults and the mutually-exclusive option list; the engine
behind it (merge planner, condition waiter, name hasher, reconciler) is an
external collaborator described by the specification, and is modelled here
from the specification text.
-/

set_option autoImplicit false

/-- MergeType, modelled from the spec: ordered preference set
over json-merge, strategic-merge and three-way-apply (section 3). -/
inductive MergeType where
  | jsonMerge
  | strategicMerge
  | threeWayApply
deriving DecidableEq

/-- External Cluster Accessor calls (spec section 6): get, create, patch, delete. -/
inductive AccessorCall where
  | getCall
  | createCall
  | patchCall
  | deleteCall
deriving DecidableEq

/-- Caller-supplied options relevant to the mutually-exclusive check in
`KubernetesModule.__init__` (src/plugins/modules/k8s.py lines 304-314).
A field is `some` exactly when the caller supplied the option. -/
structure ModuleParams where
  resource_definition : Option String
  src : Option String
  merge_type : Option (List MergeType)
  apply : Option Bool
deriving DecidableEq

/-- Modelled from the spec: the option validation performed by the external
AnsibleModule constructor invoked in `KubernetesModule.__init__` with
mutually_exclusive = [(resource_definition, src), (merge_type, apply)].
A ConfigurationError (the error branch) is raised before any cluster access,
and the accessor-call trace of construction is empty: `__init__` sets
`self.client = None` and performs no get/create/patch/delete. -/
def moduleInit (p : ModuleParams) : Except String ModuleParams × List AccessorCall :=
  if p.resource_definition.isSome && p.src.isSome then
    (Except.error "parameters are mutually exclusive: resource_definition, src", [])
  else if p.merge_type.isSome && p.apply.isSome then
    (Except.error "parameters are mutually exclusive: merge_type, apply", [])
  else
    (Except.ok p, [])

/-- C1: supplying both merge_type and apply, or both resource_definition and
src, makes module construction fail with a ConfigurationError, and no
External Cluster Accessor call (get/create/patch/delete) is made: the
accessor trace of construction is empty. -/
theorem moduleInit_mutually_exclusive (p : ModuleParams)
    (h : (p.merge_type.isSome = true ∧ p.apply.isSome = true) ∨
         (p.resource_definition.isSome = true ∧ p.src.isSome = true)) :
    (∃ e, (moduleInit p).1 = Except.error e) ∧ (moduleInit p).2 = [] := by
  rcases h with ⟨h1, h2⟩ | ⟨h1, h2⟩
  · unfold moduleInit
    by_cases hrs : p.resource_definition.isSome && p.src.isSome
    · simp [hrs]
    · simp [hrs, h1, h2]
  · unfold moduleInit
    simp [h1, h2]

/-- Witness for C1: a concrete parameter set supplying both merge_type and
apply is rejected with an error and an empty accessor trace. -/
theorem moduleInit_mutually_exclusive_witness :
    (∃ e, (moduleInit ⟨none, none, some [MergeType.jsonMerge], some true⟩).1 =
      Except.error e) ∧
    (moduleInit ⟨none, none, some [MergeType.jsonMerge], some true⟩).2 = [] :=
  moduleInit_mutually_exclusive ⟨none, none, some [MergeType.jsonMerge], some true⟩
    (Or.inl ⟨by decide, by decide⟩)

/-- Default of `wait_sleep` in `KubernetesModule.argspec` (k8s.py line 296). -/
def wait_sleep_default : Nat := 5

/-- Default of `wait_timeout` in `KubernetesModule.argspec` (k8s.py line 297). -/
def wait_timeout_default : Nat := 120

/-- Number of polls the waiter performs before timing out when never
satisfied: one initial poll plus one per full sleep interval inside the
timeout budget. -/
def numPolls (timeoutSeconds sleepSeconds : Nat) : Nat :=
  timeoutSeconds / max sleepSeconds 1 + 1

/-- C10: the module defaults wait_sleep=5 and wait_timeout=120 satisfy the
WaitSpec invariant timeoutSeconds ≥ pollIntervalSeconds > 0, and the
default-configured waiter performs more than a single poll. -/
theorem wait_defaults_satisfy_invariant :
    wait_sleep_default ≤ wait_timeout_default ∧ 0 < wait_sleep_default ∧
    1 < numPolls wait_timeout_default wait_sleep_default := by
  decide

/-- PlanningError payload: the planner error names the attempted merge types. -/
inductive PlanError where
  | planningError (attempted : List MergeType)
deriving DecidableEq

/-- Modelled from the spec: scan an ordered merge-type preference list and
return the first type that yields a structurally valid patch, where
validity of a type for the resource at hand is abstracted by `sup`. -/
def firstSupported (sup : MergeType → Bool) : List MergeType → Option MergeType
  | [] => none
  | t :: ts => if sup t then some t else firstSupported sup ts

/-- Modelled from the spec: merge-type selection (spec section 4.2).  For
each configured type in order attempt a patch; stop at the first type that
yields a structurally valid patch; if all configured types fail, surface a
PlanningError naming the attempted types. -/
def selectMergeType (sup : MergeType → Bool) (types : List MergeType) :
    Except PlanError MergeType :=
  match firstSupported sup types with
  | some t => Except.ok t
  | none => Except.error (PlanError.planningError types)

theorem firstSupported_eq_some (sup : MergeType → Bool) :
    ∀ (types : List MergeType) (t : MergeType), firstSupported sup types = some t →
      ∃ pre post, types = pre ++ t :: post ∧ (∀ u ∈ pre, sup u = false) ∧ sup t = true := by
  intro types
  induction types with
  | nil => intro t h; simp [firstSupported] at h
  | cons a ts ih =>
    intro t h
    by_cases ha : sup a = true
    · refine ⟨[], ts, ?_, by simp, ?_⟩
      · simp [firstSupported, ha] at h
        simp [h]
      · simp [firstSupported, ha] at h
        exact h ▸ ha
    · simp [firstSupported, ha] at h
      obtain ⟨pre, post, hsplit, hpre, ht⟩ := ih t h
      exact ⟨a :: pre, post, by simp [hsplit], by
        intro u hu
        rcases List.mem_cons.mp hu with rfl | hu
        · simpa using ha
        · exact hpre u hu, ht⟩

theorem firstSupported_eq_none (sup : MergeType → Bool) :
    ∀ (types : List MergeType), (∀ t ∈ types, sup t = false) →
      firstSupported sup types = none := by
  intro types
  induction types with
  | nil => intro _; rfl
  | cons a ts ih =>
    intro h
    have ha : sup a = false := h a (by simp)
    simp [firstSupported, ha]
    exact ih (fun t ht => h t (by simp [ht]))

/-- C5: merge-type selection scans the ordered preference list, stops at the
first type that yields a structurally valid patch, and raises a
PlanningError naming the attempted types when every configured type fails. -/
theorem selectMergeType_first_wins (sup : MergeType → Bool) (types : List MergeType) :
    (∀ t, selectMergeType sup types = Except.ok t →
      ∃ pre post, types = pre ++ t :: post ∧ (∀ u ∈ pre, sup u = false) ∧ sup t = true) ∧
    ((∀ t ∈ types, sup t = false) →
      selectMergeType sup types = Except.error (PlanError.planningError types)) := by
  constructor
  · intro t h
    unfold selectMergeType at h
    cases hf : firstSupported sup types with
    | none => rw [hf] at h; exact absurd h (by simp)
    | some u =>
      rw [hf] at h
      have : u = t := by simpa using h
      exact firstSupported_eq_some sup types t (this ▸ hf)
  · intro h
    unfold selectMergeType
    rw [firstSupported_eq_none sup types h]

/-- Witness for C5: with strategic-merge unsupported and json-merge
supported, the selection skips strategic-merge and picks json-merge; and
when nothing is supported the PlanningError names the attempted list. -/
theorem selectMergeType_first_wins_witness :
    selectMergeType (fun t => decide (t = MergeType.jsonMerge))
      [MergeType.strategicMerge, MergeType.jsonMerge] = Except.ok MergeType.jsonMerge ∧
    selectMergeType (fun _ => false)
      [MergeType.strategicMerge, MergeType.jsonMerge] =
      Except.error (PlanError.planningError [MergeType.strategicMerge, MergeType.jsonMerge]) := by
  constructor
  · rfl
  · exact (selectMergeType_first_wins (fun _ => false)
      [MergeType.strategicMerge, MergeType.jsonMerge]).2 (by decide)

/-- Status values of a wait condition, from `KubernetesModule.condition_spec`
(k8s.py lines 280-286): choices are True, False and Unknown. -/
inductive CondStatus where
  | strue
  | sfalse
  | unknown
deriving DecidableEq

/-- Choices of the `status` suboption in `condition_spec` (k8s.py line 284). -/
def condStatusChoices : List CondStatus :=
  [CondStatus.strue, CondStatus.sfalse, CondStatus.unknown]

/-- Default of the `status` suboption in `condition_spec` (k8s.py line 284). -/
def condStatusDefault : CondStatus := CondStatus.strue

/-- Caller-specified wait condition (`wait_condition`): type, status, and an
optional reason (k8s.py lines 280-286). -/
structure WaitCondition where
  ctype : String
  status : CondStatus
  reason : Option String
deriving DecidableEq

/-- An entry of a live object's status.conditions list. -/
structure LiveCondition where
  ctype : String
  status : CondStatus
  reason : String
deriving DecidableEq

/-- A live resource object as the Condition Waiter sees it: its
status.conditions list. -/
structure KObj where
  conditions : List LiveCondition
deriving DecidableEq

/-- Modelled from the spec: a live conditions entry matches the caller's
wait condition when type and status match, with reason matched only when
the caller specified one (spec section 3, Condition). -/
def conditionMatches (want : WaitCondition) (c : LiveCondition) : Bool :=
  decide (want.ctype = c.ctype) && decide (want.status = c.status) &&
    (match want.reason with
     | none => true
     | some r => decide (c.reason = r))

/-- Modelled from the spec: a resource satisfies a Condition exactly when
its live status.conditions contains a matching entry. -/
def satisfies (obj : KObj) (want : WaitCondition) : Bool :=
  obj.conditions.any (fun c => conditionMatches want c)

/-- C6: the status of a wait condition ranges over exactly the enumeration
True, False, Unknown and defaults to True; and a resource satisfies a
Condition exactly when its live status.conditions contains an entry whose
type and status both match, with reason matched only when specified. -/
theorem condition_status_enum_and_satisfaction (obj : KObj) (want : WaitCondition) :
    condStatusDefault = CondStatus.strue ∧
    condStatusChoices = [CondStatus.strue, CondStatus.sfalse, CondStatus.unknown] ∧
    (∀ s : CondStatus, s ∈ condStatusChoices) ∧
    (satisfies obj want = true ↔
      ∃ c ∈ obj.conditions, want.ctype = c.ctype ∧ want.status = c.status ∧
        ∀ r, want.reason = some r → c.reason = r) := by
  refine ⟨rfl, rfl, by intro s; cases s <;> decide, ?_⟩
  unfold satisfies conditionMatches
  rw [List.any_eq_true]
  constructor
  · rintro ⟨c, hc, hmatch⟩
    refine ⟨c, hc, ?_⟩
    cases hr : want.reason with
    | none =>
      rw [hr] at hmatch
      simp at hmatch
      exact ⟨hmatch.1, hmatch.2, by simp [hr]⟩
    | some r =>
      rw [hr] at hmatch
      simp at hmatch
      refine ⟨hmatch.1.1, hmatch.1.2, ?_⟩
      intro r0 hr0
      simp only [hr, Option.some.injEq] at hr0
      exact hr0 ▸ hmatch.2
  · rintro ⟨c, hc, h1, h2, h3⟩
    refine ⟨c, hc, ?_⟩
    cases hr : want.reason with
    | none => simp [h1, h2]
    | some r => simp [h1, h2, h3 r hr]

/-- Outcome of a wait: whether the condition was satisfied, how many polls
were made, the elapsed seconds and the last observed object.  An
unsatisfied outcome models a WaitTimeoutError carrying the last observed
object. -/
structure WaitOutcome where
  satisfied : Bool
  pollCount : Nat
  elapsedSeconds : Nat
  last : KObj
deriving DecidableEq

/-- Modelled from the spec: one polling loop of the Condition Waiter.
`fetch i` is the object observed at the i-th poll; `fuel` is the number of
sleep intervals remaining in the timeout budget.  Polling stops at the
first satisfied poll, or when the budget is exhausted. -/
def waitGo (fetch : Nat → KObj) (p : KObj → Bool) : Nat → Nat → Bool × Nat × KObj
  | 0, i => if p (fetch i) then (true, i, fetch i) else (false, i, fetch i)
  | fuel + 1, i => if p (fetch i) then (true, i, fetch i) else waitGo fetch p fuel (i + 1)

/-- Modelled from the spec: the Condition Waiter (spec section 4.4).  Polls
at pollIntervalSeconds granularity, first poll immediately, until the
condition is satisfied or timeoutSeconds elapse; returns the outcome with
the last observed object attached. -/
def wait (fetch : Nat → KObj) (want : WaitCondition)
    (timeoutSeconds sleepSeconds : Nat) : WaitOutcome :=
  let r := waitGo fetch (fun o => satisfies o want) (timeoutSeconds / max sleepSeconds 1) 0
  ⟨r.1, r.2.1 + 1, r.2.1 * sleepSeconds, r.2.2⟩

theorem waitGo_first_poll (fetch : Nat → KObj) (p : KObj → Bool) (fuel i : Nat)
    (h : p (fetch i) = true) : waitGo fetch p fuel i = (true, i, fetch i) := by
  cases fuel <;> simp [waitGo, h]

theorem waitGo_never (fetch : Nat → KObj) (p : KObj → Bool)
    (h : ∀ j, p (fetch j) = false) :
    ∀ fuel i, waitGo fetch p fuel i = (false, fuel + i, fetch (fuel + i)) := by
  intro fuel
  induction fuel with
  | zero => intro i; simp [waitGo, h i]
  | succ n ih =>
    intro i
    have := ih (i + 1)
    simp [waitGo, h i, this]
    constructor
    · omega
    · have : n + (i + 1) = n + 1 + i := by omega
      rw [this]

/-- C4: for an object whose live conditions contain the wanted type/status,
waiting returns satisfied on the first poll (one poll, zero elapsed); for a
condition that never matches, the waiter times out with satisfied=false
after polling timeout/interval + 1 times, the last observed object
attached. -/
theorem wait_satisfied_first_and_timeout (fetch : Nat → KObj)
    (want1 want2 : WaitCondition) (t s : Nat)
    (h1 : satisfies (fetch 0) want1 = true)
    (h2 : ∀ i, satisfies (fetch i) want2 = false) :
    wait fetch want1 t s = ⟨true, 1, 0, fetch 0⟩ ∧
    wait fetch want2 t s =
      ⟨false, numPolls t s, (t / max s 1) * s, fetch (t / max s 1)⟩ := by
  constructor
  · unfold wait
    rw [waitGo_first_poll fetch _ _ 0 h1]
    simp
  · unfold wait
    rw [waitGo_never fetch _ h2 (t / max s 1) 0]
    simp [numPolls]

/-- Witness for C4: with live conditions containing type Available and
status True, waiting for Available/True succeeds on the first poll, and
waiting for Available/False with timeout 120 and sleep 5 times out after
25 polls with the last observed object attached. -/
theorem wait_satisfied_first_and_timeout_witness :
    wait (fun _ => ⟨[⟨"Available", CondStatus.strue, "ok"⟩]⟩)
      ⟨"Available", CondStatus.strue, none⟩ 120 5 =
      ⟨true, 1, 0, ⟨[⟨"Available", CondStatus.strue, "ok"⟩]⟩⟩ ∧
    wait (fun _ => ⟨[⟨"Available", CondStatus.strue, "ok"⟩]⟩)
      ⟨"Available", CondStatus.sfalse, none⟩ 120 5 =
      ⟨false, 25, 120, ⟨[⟨"Available", CondStatus.strue, "ok"⟩]⟩⟩ :=
  wait_satisfied_first_and_timeout
    (fun _ => ⟨[⟨"Available", CondStatus.strue, "ok"⟩]⟩)
    ⟨"Available", CondStatus.strue, none⟩
    ⟨"Available", CondStatus.sfalse, none⟩ 120 5
    (by decide)
    (by
      intro i
      show satisfies ⟨[⟨"Available", CondStatus.strue, "ok"⟩]⟩
        ⟨"Available", CondStatus.sfalse, none⟩ = false
      decide)

/-- Hashed fields of a ConfigMap/Secret: the name stem and the immutable
data payload, per spec section 4.1. -/
structure HashedFields where
  baseName : String
  data : List (String × String)
deriving DecidableEq

/-- Injective encoding of a character list into a natural number. -/
def encChars : List Char → Nat
  | [] => 0
  | c :: cs => Nat.pair c.toNat (encChars cs) + 1

/-- Injective encoding of a string into a natural number. -/
def encString (s : String) : Nat := encChars s.data

/-- Injective encoding of a key/value entry list into a natural number. -/
def encEntries : List (String × String) → Nat
  | [] => 0
  | e :: rest => Nat.pair (Nat.pair (encString e.1) (encString e.2)) (encEntries rest) + 1

/-- Modelled from the spec: `computeHash` of the Name Hasher (spec section
4.1), a deterministic function of exactly the hashed fields whose value
changes whenever any hashed field changes. -/
def computeHash (c : HashedFields) : Nat :=
  Nat.pair (encString c.baseName) (encEntries c.data)

theorem nat_pair_inj {a b c d : Nat} (h : Nat.pair a b = Nat.pair c d) :
    a = c ∧ b = d := by
  have := congrArg Nat.unpair h
  simp [Nat.unpair_pair] at this
  exact this

theorem encChars_inj : ∀ (l1 l2 : List Char), encChars l1 = encChars l2 → l1 = l2 := by
  intro l1
  induction l1 with
  | nil =>
    intro l2 h
    cases l2 with
    | nil => rfl
    | cons c cs => simp [encChars] at h
  | cons c cs ih =>
    intro l2 h
    cases l2 with
    | nil => simp [encChars] at h
    | cons d ds =>
      simp only [encChars, Nat.add_right_cancel_iff] at h
      obtain ⟨h1, h2⟩ := nat_pair_inj h
      have hc : c = d :=
        Char.eq_of_val_eq (UInt32.eq_of_toBitVec_eq (BitVec.toNat_injective h1))
      rw [hc, ih ds h2]

theorem encString_inj {s t : String} (h : encString s = encString t) : s = t := by
  have := encChars_inj s.data t.data h
  cases s; cases t; simp_all

theorem encEntries_inj : ∀ (l1 l2 : List (String × String)),
    encEntries l1 = encEntries l2 → l1 = l2 := by
  intro l1
  induction l1 with
  | nil =>
    intro l2 h
    cases l2 with
    | nil => rfl
    | cons e es => simp [encEntries] at h
  | cons e es ih =>
    intro l2 h
    cases l2 with
    | nil => simp [encEntries] at h
    | cons f fs =>
      simp only [encEntries, Nat.add_right_cancel_iff] at h
      obtain ⟨h1, h2⟩ := nat_pair_inj h
      obtain ⟨hk, hv⟩ := nat_pair_inj h1
      have he : e = f := by
        cases e; cases f
        simp_all
        exact ⟨encString_inj hk, encString_inj hv⟩
      rw [he, ih fs h2]

/-- C7: computeHash is deterministic, two definitions identical in their
hashed fields produce the same hash, and the hash changes whenever any
hashed field changes. -/
theorem computeHash_deterministic_and_content_sensitive (a b : HashedFields) :
    computeHash a = computeHash a ∧
    (a = b → computeHash a = computeHash b) ∧
    (a ≠ b → computeHash a ≠ computeHash b) := by
  refine ⟨rfl, fun h => by rw [h], fun hne habs => hne ?_⟩
  unfold computeHash at habs
  obtain ⟨h1, h2⟩ := nat_pair_inj habs
  have hn := encString_inj h1
  have hd := encEntries_inj a.data b.data h2
  cases a; cases b; simp_all

/-- Witness for C7: changing one data value changes the hash. -/
theorem computeHash_content_sensitive_witness :
    computeHash ⟨"web", [("key", "v1")]⟩ ≠ computeHash ⟨"web", [("key", "v2")]⟩ :=
  (computeHash_deterministic_and_content_sensitive
    ⟨"web", [("key", "v1")]⟩ ⟨"web", [("key", "v2")]⟩).2.2 (by decide)

/-- A resource object as the Name Hasher sees it: kind, name, data payload. -/
structure HObj where
  kind : String
  name : String
  data : List (String × String)
deriving DecidableEq

/-- Modelled from the spec: append_hash name hashing (spec section 4.1 and
k8s.py line 300).  The content hash is appended to the name only for
ConfigMap and Secret kinds; for any other kind the object is returned
unchanged, silently, never an error. -/
def appendHash (obj : HObj) : HObj :=
  if obj.kind = "ConfigMap" ∨ obj.kind = "Secret" then
    { obj with name := obj.name ++ "-" ++ toString (computeHash ⟨obj.name, obj.data⟩) }
  else obj

/-- C8: append_hash is a no-op for every kind other than ConfigMap and
Secret: the object, and in particular its name, is left unchanged, and no
error is raised. -/
theorem appendHash_noop_other_kinds (obj : HObj)
    (h1 : obj.kind ≠ "ConfigMap") (h2 : obj.kind ≠ "Secret") :
    appendHash obj = obj ∧ (appendHash obj).name = obj.name := by
  have : appendHash obj = obj := by
    unfold appendHash
    simp [h1, h2]
  exact ⟨this, by rw [this]⟩

/-- Witness for C8: append_hash leaves a Deployment unchanged. -/
theorem appendHash_noop_other_kinds_witness :
    appendHash ⟨"Deployment", "web", []⟩ = ⟨"Deployment", "web", []⟩ ∧
    (appendHash ⟨"Deployment", "web", []⟩).name = "web" :=
  appendHash_noop_other_kinds ⟨"Deployment", "web", []⟩ (by decide) (by decide)

/-- Modelled from the spec: arbitrary nested resource document (spec
section 3, design note: a generic tagged document type with map and scalar
variants).  An object is a chain of objCons entries terminated by objNil;
null is the JSON-merge deletion marker (glossary: null values delete). -/
inductive Doc where
  | null
  | str (s : String)
  | objNil
  | objCons (key : String) (value : Doc) (rest : Doc)
deriving DecidableEq

/-- Whether a document is an object. -/
def Doc.isObj : Doc → Bool
  | .objNil => true
  | .objCons _ _ _ => true
  | _ => false

/-- First value bound to a key in an object chain. -/
def Doc.lookup : Doc → String → Option Doc
  | .objCons k v rest, key => if key = k then some v else rest.lookup key
  | _, _ => none

/-- Remove every binding of a key from an object chain. -/
def Doc.erase : Doc → String → Doc
  | .objCons k v rest, key =>
      if key = k then rest.erase key else .objCons k v (rest.erase key)
  | t, _ => t

/-- Replace the first binding of a key, or append a new binding at the end. -/
def Doc.setKey : Doc → String → Doc → Doc
  | .objCons k v rest, key, nv =>
      if key = k then .objCons k nv rest else .objCons k v (rest.setKey key nv)
  | t, key, nv => .objCons key nv t

/-- Value bound to a key, defaulting to the empty object. -/
def Doc.getOr (t : Doc) (key : String) : Doc :=
  match t.lookup key with
  | some v => v
  | none => .objNil

/-- Concatenation of two object chains. -/
def Doc.fappend : Doc → Doc → Doc
  | .objCons k v rest, b => .objCons k v (rest.fappend b)
  | _, b => b

/-- Deletion entries of a merge patch: a null binding for every key of the
live object that the desired object lacks. -/
def Doc.removals : Doc → Doc → Doc
  | .objCons k _ rest, d =>
      if (d.lookup k).isSome then rest.removals d
      else .objCons k .null (rest.removals d)
  | _, _ => .objNil

/-- Whether every key of the first chain is bound in the second. -/
def Doc.keysIncl : Doc → Doc → Bool
  | .objCons k _ rest, b => (b.lookup k).isSome && rest.keysIncl b
  | _, _ => true

/-- Whether the top-level keys of a chain are pairwise distinct. -/
def Doc.nodupTop : Doc → Bool
  | .objCons k _ rest => (rest.lookup k).isNone && rest.nodupTop
  | _ => true

/-- Whether a document contains no null (deletion) markers. -/
def Doc.noNulls : Doc → Bool
  | .null => false
  | .objCons _ v rest => v.noNulls && rest.noNulls
  | _ => true

/-- Whether every object chain in a document has pairwise distinct keys. -/
def Doc.wfKeys : Doc → Bool
  | .objCons k v rest => (rest.lookup k).isNone && v.wfKeys && rest.wfKeys
  | _ => true

/-- Modelled from the spec: dictionary equality of documents, the notion of
"no effective differences" of spec section 4.2.  In mode true,
`Doc.eqv true a b` decides order-insensitive equality: equal scalars, or
objects with the same key set and pairwise equal values.  In mode false it
checks that every entry of the first chain has an equal counterpart in the
second document. -/
def Doc.eqv : Bool → Doc → Doc → Bool
  | true, .null, .null => true
  | true, .null, _ => false
  | true, .str s, .str t => s == t
  | true, .str _, _ => false
  | true, .objNil, b => b.isObj && b.keysIncl .objNil
  | true, .objCons k v rest, b =>
      b.isObj && b.keysIncl (.objCons k v rest) &&
      (match b.lookup k with
       | some w => Doc.eqv true v w
       | none => false) &&
      Doc.eqv false rest b
  | false, .objCons k v rest, b =>
      (match b.lookup k with
       | some w => Doc.eqv true v w
       | none => false) &&
      Doc.eqv false rest b
  | false, _, _ => true

/-- Dictionary equality of two documents. -/
def Doc.deq (a b : Doc) : Bool := Doc.eqv true a b && Doc.eqv true b a

/-- Modelled from the spec: application of a JSON merge patch (glossary:
RFC-7386 style, null values delete keys; an object patch merges into an
object target, any other target is first replaced by the empty object;
a scalar patch replaces the target). -/
def Doc.apply : Doc → Doc → Doc
  | t, .objNil => if t.isObj then t else .objNil
  | t, .objCons k pv rest =>
      let tf := if t.isObj then t else .objNil
      match pv with
      | .null => Doc.apply (tf.erase k) rest
      | _ => Doc.apply (tf.setKey k (Doc.apply (tf.getOr k) pv)) rest
  | _, p => p

/-- Modelled from the spec: "no effective differences" between a live and a
desired document (spec section 4.2).  The desired document is read as a
JSON merge patch, so a null deletion marker against an already-absent key
is no difference: desired has no effective differences from live exactly
when applying it to live leaves live unchanged up to dictionary equality. -/
def Doc.effEq (l d : Doc) : Bool := Doc.deq (Doc.apply l d) l

/-- Modelled from the spec: merge-patch computation (spec section 4.2 and
glossary).  Mode true computes the JSON-merge patch moving the first
document (live) toward the second (desired): keys of live missing from
desired become null deletion entries, new keys take desired's value (a
null marker for a key live does not have is dropped: deleting an absent
key is no difference), and common keys with effective differences recurse;
keys with no effective difference are omitted.  Mode false is the walk
over the desired chain that produces the addition/change entries. -/
def Doc.difm : Bool → Doc → Doc → Doc
  | true, l, .objCons k dv rest =>
      if l.isObj then
        Doc.fappend (l.removals (.objCons k dv rest))
          (match l.lookup k with
           | none =>
               if dv = Doc.null then Doc.difm false l rest
               else .objCons k dv (Doc.difm false l rest)
           | some lv =>
               if Doc.effEq lv dv then Doc.difm false l rest
               else .objCons k (Doc.difm true lv dv) (Doc.difm false l rest))
      else .objCons k dv rest
  | true, l, .objNil => if l.isObj then l.removals .objNil else .objNil
  | true, _, d => d
  | false, l, .objCons k dv rest =>
      (match l.lookup k with
       | none =>
           if dv = Doc.null then Doc.difm false l rest
           else .objCons k dv (Doc.difm false l rest)
       | some lv =>
           if Doc.effEq lv dv then Doc.difm false l rest
           else .objCons k (Doc.difm true lv dv) (Doc.difm false l rest))
  | false, _, _ => .objNil

/-- The merge patch carrying a live document toward a desired document. -/
def Doc.diff (l d : Doc) : Doc := Doc.difm true l d

/-- The addition/change entries of the merge patch. -/
def Doc.chg (l d : Doc) : Doc := Doc.difm false l d

/-- Whether the caller asked for the object to be present or absent. -/
inductive ResState where
  | present
  | absent
deriving DecidableEq

/-- Action decided by the Merge Planner (spec section 4.2):
create with the desired body, patch, delete, or noop. -/
inductive PlanAction where
  | create (body : Doc)
  | patchA (patch : Doc)
  | deleteA
  | noop
deriving DecidableEq

/-- Result of planning: an action, or a PlanningError naming the attempted
merge types. -/
inductive PlanResult where
  | act (a : PlanAction)
  | planErr (attempted : List MergeType)
deriving DecidableEq

/-- Modelled from the spec: the Merge Planner plan function (spec section
4.2).  Absent live with state present creates with desired's full body;
existing live with state absent deletes; absent live with state absent is
a noop (already absent is unchanged success, not an error); otherwise the
patch is computed when desired has effective differences from live, with a
PlanningError when no configured merge type is valid. -/
def plan (live : Option Doc) (desired : Doc) (st : ResState)
    (types : List MergeType) (sup : MergeType → Bool) : PlanResult :=
  match live, st with
  | none, .present => .act (.create desired)
  | some _, .absent => .act .deleteA
  | none, .absent => .act .noop
  | some l, .present =>
      if Doc.effEq l desired then .act .noop
      else
        match firstSupported sup types with
        | some _ => .act (.patchA (Doc.diff l desired))
        | none => .planErr types

/-- Modelled from the spec: effect of an action on the live state of the
object's identity.  A create stores the effect of the desired content:
null deletion markers in the desired body do not materialize as stored
fields (the cluster never stores a deletion marker). -/
def applyAction (live : Option Doc) : PlanAction → Option Doc
  | .create d => some (Doc.apply Doc.objNil d)
  | .patchA p => some (Doc.apply (live.getD .objNil) p)
  | .deleteA => none
  | .noop => live

/-- Accessor writes an action performs when executed (spec section 6). -/
def writesOf : PlanAction → List AccessorCall
  | .create _ => [AccessorCall.createCall]
  | .patchA _ => [AccessorCall.patchCall]
  | .deleteA => [AccessorCall.deleteCall]
  | .noop => []

/-- Outcome of one reconcile step: resulting live state, accessor writes
performed, and the planner result reported. -/
structure ReconcileOut where
  newLive : Option Doc
  writes : List AccessorCall
  result : PlanResult
deriving DecidableEq

/-- Modelled from the spec: the Reconciler (spec section 4.3): fetch live,
invoke the Merge Planner, then if checkMode synthesize the would-be result
without writing, else apply the action through the External Cluster
Accessor. -/
def reconcile (checkMode : Bool) (live : Option Doc) (desired : Doc)
    (st : ResState) (types : List MergeType) (sup : MergeType → Bool) :
    ReconcileOut :=
  match plan live desired st types sup with
  | .planErr ts => ⟨live, [], .planErr ts⟩
  | .act a =>
      if checkMode then ⟨live, [], .act a⟩
      else ⟨applyAction live a, writesOf a, .act a⟩

/-- Whether a document is a properly terminated object chain. -/
def Doc.isFields : Doc → Bool
  | .objNil => true
  | .objCons _ _ rest => rest.isFields
  | _ => false

/-- Well-formed document: every object chain is properly terminated and has
pairwise distinct keys at every level. -/
def Doc.wfDoc : Doc → Bool
  | .objCons k v rest =>
      (rest.lookup k).isNone && rest.isObj && v.wfDoc && rest.wfDoc
  | _ => true

theorem Doc.lookup_erase (t : Doc) (k key : String) :
    (t.erase k).lookup key = if key = k then none else t.lookup key := by
  induction t with
  | null => simp [Doc.erase, Doc.lookup]
  | str s => simp [Doc.erase, Doc.lookup]
  | objNil => simp [Doc.erase, Doc.lookup]
  | objCons k0 v rest ihv ihr =>
    by_cases h1 : k = k0
    · subst h1
      have he : Doc.erase (Doc.objCons k v rest) k = rest.erase k := by
        simp [Doc.erase]
      rw [he, ihr]
      by_cases h2 : key = k <;> simp [h2, Doc.lookup]
    · simp only [Doc.erase, if_neg h1]
      by_cases h2 : key = k0
      · subst h2
        simp [Doc.lookup, show key ≠ k from fun h => h1 h.symm]
      · simp [Doc.lookup, h2, ihr]

theorem Doc.lookup_setKey (t : Doc) (k key : String) (nv : Doc) :
    (t.setKey k nv).lookup key = if key = k then some nv else t.lookup key := by
  induction t with
  | null => simp [Doc.setKey, Doc.lookup]
  | str s => simp [Doc.setKey, Doc.lookup]
  | objNil => simp [Doc.setKey, Doc.lookup]
  | objCons k0 v rest ihv ihr =>
    by_cases h1 : k = k0
    · subst h1
      by_cases h2 : key = k
      · simp [Doc.setKey, Doc.lookup, h2]
      · simp [Doc.setKey, Doc.lookup, h2]
    · by_cases h2 : key = k0
      · subst h2
        simp [Doc.setKey, Doc.lookup, h1, show key ≠ k from fun h => h1 h.symm]
      · simp [Doc.setKey, Doc.lookup, h1, h2, ihr]

theorem Doc.lookup_fappend (a b : Doc) (key : String) :
    (a.fappend b).lookup key =
      match a.lookup key with
      | some v => some v
      | none => b.lookup key := by
  induction a with
  | null => simp [Doc.fappend, Doc.lookup]
  | str s => simp [Doc.fappend, Doc.lookup]
  | objNil => simp [Doc.fappend, Doc.lookup]
  | objCons k v rest ihv ihr =>
    by_cases h : key = k <;> simp [Doc.fappend, Doc.lookup, h, ihr]

theorem Doc.lookup_norm (t : Doc) (key : String) :
    (if t.isObj then t else Doc.objNil).lookup key = t.lookup key := by
  cases t <;> simp [Doc.isObj, Doc.lookup]

theorem Doc.getOr_congr {t1 t2 : Doc} (key : String)
    (h : t1.lookup key = t2.lookup key) : t1.getOr key = t2.getOr key := by
  unfold Doc.getOr
  rw [h]

theorem Doc.getOr_eq_of_lookup {t : Doc} {key : String} {v : Doc}
    (h : t.lookup key = some v) : t.getOr key = v := by
  unfold Doc.getOr
  rw [h]

theorem Doc.getOr_eq_of_lookup_none {t : Doc} {key : String}
    (h : t.lookup key = none) : t.getOr key = Doc.objNil := by
  unfold Doc.getOr
  rw [h]

theorem Doc.sizeOf_lookup : ∀ (t : Doc) (key : String) (v : Doc),
    t.lookup key = some v → sizeOf v < sizeOf t := by
  intro t
  induction t with
  | null => intro key v h; simp [Doc.lookup] at h
  | str s => intro key v h; simp [Doc.lookup] at h
  | objNil => intro key v h; simp [Doc.lookup] at h
  | objCons k0 w rest ihv ihr =>
    intro key v h
    simp only [Doc.lookup] at h
    by_cases hk : key = k0
    · rw [if_pos hk] at h
      cases h
      simp only [Doc.objCons.sizeOf_spec]
      omega
    · rw [if_neg hk] at h
      have h1 := ihr key v h
      simp only [Doc.objCons.sizeOf_spec]
      omega

theorem Doc.noNulls_lookup : ∀ (t : Doc) (key : String) (v : Doc),
    t.noNulls = true → t.lookup key = some v → v.noNulls = true := by
  intro t
  induction t with
  | null => intro key v _ h; simp [Doc.lookup] at h
  | str s => intro key v _ h; simp [Doc.lookup] at h
  | objNil => intro key v _ h; simp [Doc.lookup] at h
  | objCons k0 w rest ihv ihr =>
    intro key v hn h
    simp only [Doc.noNulls, Bool.and_eq_true] at hn
    simp only [Doc.lookup] at h
    by_cases hk : key = k0
    · rw [if_pos hk] at h
      cases h
      exact hn.1
    · rw [if_neg hk] at h
      exact ihr key v hn.2 h

theorem Doc.noNulls_ne_null {v : Doc} (h : v.noNulls = true) : v ≠ Doc.null := by
  intro hv
  subst hv
  simp [Doc.noNulls] at h

theorem Doc.ne_null_of_isObj {t : Doc} (h : t.isObj = true) : t ≠ Doc.null := by
  intro hv
  subst hv
  simp [Doc.isObj] at h

theorem Doc.wfDoc_lookup : ∀ (t : Doc) (key : String) (v : Doc),
    t.wfDoc = true → t.lookup key = some v → v.wfDoc = true := by
  intro t
  induction t with
  | null => intro key v _ h; simp [Doc.lookup] at h
  | str s => intro key v _ h; simp [Doc.lookup] at h
  | objNil => intro key v _ h; simp [Doc.lookup] at h
  | objCons k0 w rest ihv ihr =>
    intro key v hn h
    simp only [Doc.wfDoc, Bool.and_eq_true] at hn
    simp only [Doc.lookup] at h
    by_cases hk : key = k0
    · rw [if_pos hk] at h
      cases h
      exact hn.1.2
    · rw [if_neg hk] at h
      exact ihr key v hn.2 h

theorem Doc.wfDoc_nodupTop : ∀ (t : Doc), t.wfDoc = true → t.nodupTop = true := by
  intro t
  induction t with
  | null => intro _; rfl
  | str s => intro _; rfl
  | objNil => intro _; rfl
  | objCons k0 w rest ihv ihr =>
    intro hn
    simp only [Doc.wfDoc, Bool.and_eq_true] at hn
    simp only [Doc.nodupTop, Bool.and_eq_true]
    exact ⟨hn.1.1.1, ihr hn.2⟩

theorem Doc.wfDoc_isFields : ∀ (t : Doc), t.wfDoc = true → t.isObj = true →
    t.isFields = true := by
  intro t
  induction t with
  | null => intro _ h; simp [Doc.isObj] at h
  | str s => intro _ h; simp [Doc.isObj] at h
  | objNil => intro _ _; rfl
  | objCons k0 w rest ihv ihr =>
    intro hn _
    simp only [Doc.wfDoc, Bool.and_eq_true] at hn
    simp only [Doc.isFields]
    exact ihr hn.2 hn.1.1.2

theorem Doc.nodupTop_erase : ∀ (t : Doc) (k : String),
    t.nodupTop = true → (t.erase k).nodupTop = true := by
  intro t
  induction t with
  | null => intro k _; rfl
  | str s => intro k _; rfl
  | objNil => intro k _; rfl
  | objCons k0 v rest ihv ihr =>
    intro k hn
    simp only [Doc.nodupTop, Bool.and_eq_true] at hn
    by_cases h1 : k = k0
    · subst h1
      simp only [Doc.erase, if_pos rfl]
      exact ihr k hn.2
    · simp only [Doc.erase, if_neg h1]
      simp only [Doc.nodupTop, Bool.and_eq_true]
      constructor
      · rw [Doc.lookup_erase]
        simp [show k0 ≠ k from fun h => h1 h.symm, hn.1]
      · exact ihr k hn.2

theorem Doc.nodupTop_setKey : ∀ (t : Doc) (k : String) (nv : Doc),
    t.nodupTop = true → (t.setKey k nv).nodupTop = true := by
  intro t
  induction t with
  | null => intro k nv _; simp [Doc.setKey, Doc.nodupTop, Doc.lookup]
  | str s => intro k nv _; simp [Doc.setKey, Doc.nodupTop, Doc.lookup]
  | objNil => intro k nv _; simp [Doc.setKey, Doc.nodupTop, Doc.lookup]
  | objCons k0 v rest ihv ihr =>
    intro k nv hn
    simp only [Doc.nodupTop, Bool.and_eq_true] at hn
    by_cases h1 : k = k0
    · subst h1
      simp only [Doc.setKey, if_pos rfl]
      simp only [Doc.nodupTop, Bool.and_eq_true]
      exact hn
    · simp only [Doc.setKey, if_neg h1]
      simp only [Doc.nodupTop, Bool.and_eq_true]
      constructor
      · rw [Doc.lookup_setKey]
        simp [show k0 ≠ k from fun h => h1 h.symm, hn.1]
      · exact ihr k nv hn.2

theorem Doc.nodupTop_norm {t : Doc} (h : t.nodupTop = true) :
    (if t.isObj then t else Doc.objNil).nodupTop = true := by
  by_cases h2 : t.isObj = true <;> simp [h2, h, Doc.nodupTop]

theorem Doc.apply_step_null (t : Doc) (k0 : String) (rest : Doc) :
    Doc.apply t (Doc.objCons k0 Doc.null rest) =
      Doc.apply ((if t.isObj then t else Doc.objNil).erase k0) rest := by
  simp [Doc.apply]

theorem Doc.apply_step_set (t : Doc) (k0 : String) (pv0 rest : Doc)
    (h : pv0 ≠ Doc.null) :
    Doc.apply t (Doc.objCons k0 pv0 rest) =
      Doc.apply ((if t.isObj then t else Doc.objNil).setKey k0
        (Doc.apply ((if t.isObj then t else Doc.objNil).getOr k0) pv0)) rest := by
  cases pv0 with
  | null => exact absurd rfl h
  | str s => simp [Doc.apply]
  | objNil => simp [Doc.apply]
  | objCons k1 v1 r1 => simp [Doc.apply]

theorem Doc.apply_lookup_none : ∀ (pf t : Doc) (key : String),
    pf.isFields = true → pf.lookup key = none →
    (Doc.apply t pf).lookup key = t.lookup key := by
  intro pf
  induction pf with
  | null => intro t key hf _; simp [Doc.isFields] at hf
  | str s => intro t key hf _; simp [Doc.isFields] at hf
  | objNil => intro t key _ _; simp [Doc.apply, Doc.lookup_norm]
  | objCons k0 pv0 rest ihv ihr =>
    intro t key hf h
    simp only [Doc.isFields] at hf
    simp only [Doc.lookup] at h
    by_cases hk : key = k0
    · rw [if_pos hk] at h; simp at h
    · rw [if_neg hk] at h
      by_cases hnull : pv0 = Doc.null
      · subst hnull
        rw [Doc.apply_step_null, ihr _ key hf h, Doc.lookup_erase, if_neg hk,
          Doc.lookup_norm]
      · rw [Doc.apply_step_set t k0 pv0 rest hnull, ihr _ key hf h,
          Doc.lookup_setKey, if_neg hk, Doc.lookup_norm]

theorem Doc.apply_lookup_del : ∀ (pf t : Doc) (key : String),
    pf.isFields = true → pf.nodupTop = true → pf.lookup key = some Doc.null →
    (Doc.apply t pf).lookup key = none := by
  intro pf
  induction pf with
  | null => intro t key hf _ _; simp [Doc.isFields] at hf
  | str s => intro t key hf _ _; simp [Doc.isFields] at hf
  | objNil => intro t key _ _ h; simp [Doc.lookup] at h
  | objCons k0 pv0 rest ihv ihr =>
    intro t key hf hn h
    simp only [Doc.isFields] at hf
    simp only [Doc.nodupTop, Bool.and_eq_true] at hn
    simp only [Doc.lookup] at h
    by_cases hk : key = k0
    · rw [if_pos hk] at h
      have hpv : pv0 = Doc.null := by cases h; rfl
      subst hpv
      subst hk
      have hrest : rest.lookup key = none := by
        have := hn.1
        simpa [Option.isNone_iff_eq_none] using this
      rw [Doc.apply_step_null, Doc.apply_lookup_none rest _ key hf hrest,
        Doc.lookup_erase, if_pos rfl]
    · rw [if_neg hk] at h
      by_cases hnull : pv0 = Doc.null
      · subst hnull
        rw [Doc.apply_step_null]
        exact ihr _ key hf hn.2 h
      · rw [Doc.apply_step_set t k0 pv0 rest hnull]
        exact ihr _ key hf hn.2 h

theorem Doc.apply_lookup_set : ∀ (pf t : Doc) (key : String) (pv : Doc),
    pf.isFields = true → pf.nodupTop = true → pf.lookup key = some pv →
    pv ≠ Doc.null →
    (Doc.apply t pf).lookup key = some (Doc.apply (t.getOr key) pv) := by
  intro pf
  induction pf with
  | null => intro t key pv hf _ _ _; simp [Doc.isFields] at hf
  | str s => intro t key pv hf _ _ _; simp [Doc.isFields] at hf
  | objNil => intro t key pv _ _ h _; simp [Doc.lookup] at h
  | objCons k0 pv0 rest ihv ihr =>
    intro t key pv hf hn h hnn
    simp only [Doc.isFields] at hf
    simp only [Doc.nodupTop, Bool.and_eq_true] at hn
    simp only [Doc.lookup] at h
    by_cases hk : key = k0
    · rw [if_pos hk] at h
      have hpv : pv0 = pv := by cases h; rfl
      subst hpv
      subst hk
      have hrest : rest.lookup key = none := by
        have := hn.1
        simpa [Option.isNone_iff_eq_none] using this
      have hgo : (if t.isObj then t else Doc.objNil).getOr key = t.getOr key :=
        Doc.getOr_congr key (Doc.lookup_norm t key)
      rw [Doc.apply_step_set t key pv0 rest hnn,
        Doc.apply_lookup_none rest _ key hf hrest, Doc.lookup_setKey, if_pos rfl,
        hgo]
    · rw [if_neg hk] at h
      by_cases hnull : pv0 = Doc.null
      · subst hnull
        rw [Doc.apply_step_null, ihr _ key pv hf hn.2 h hnn]
        have : ((if t.isObj then t else Doc.objNil).erase k0).getOr key =
            t.getOr key := by
          refine Doc.getOr_congr key ?_
          rw [Doc.lookup_erase, if_neg hk, Doc.lookup_norm]
        rw [this]
      · rw [Doc.apply_step_set t k0 pv0 rest hnull, ihr _ key pv hf hn.2 h hnn]
        have : ((if t.isObj then t else Doc.objNil).setKey k0
            (Doc.apply ((if t.isObj then t else Doc.objNil).getOr k0) pv0)).getOr
              key = t.getOr key := by
          refine Doc.getOr_congr key ?_
          rw [Doc.lookup_setKey, if_neg hk, Doc.lookup_norm]
        rw [this]

theorem Doc.nodupTop_apply : ∀ (pf t : Doc),
    t.nodupTop = true → (Doc.apply t pf).nodupTop = true := by
  intro pf
  induction pf with
  | null => intro t _; rfl
  | str s => intro t _; rfl
  | objNil => intro t h; simp only [Doc.apply]; exact Doc.nodupTop_norm h
  | objCons k0 pv0 rest ihv ihr =>
    intro t h
    have hnorm := Doc.nodupTop_norm h
    by_cases hnull : pv0 = Doc.null
    · subst hnull
      rw [Doc.apply_step_null]
      exact ihr _ (Doc.nodupTop_erase _ k0 hnorm)
    · rw [Doc.apply_step_set t k0 pv0 rest hnull]
      exact ihr _ (Doc.nodupTop_setKey _ k0 _ hnorm)

theorem Doc.isObj_norm (t : Doc) : (if t.isObj then t else Doc.objNil).isObj = true := by
  cases t <;> simp [Doc.isObj]

theorem Doc.isObj_apply : ∀ (pf t : Doc),
    pf.isFields = true → (Doc.apply t pf).isObj = true := by
  intro pf
  induction pf with
  | null => intro t hf; simp [Doc.isFields] at hf
  | str s => intro t hf; simp [Doc.isFields] at hf
  | objNil =>
    intro t _
    simp only [Doc.apply]
    exact Doc.isObj_norm t
  | objCons k0 pv0 rest ihv ihr =>
    intro t hf
    simp only [Doc.isFields] at hf
    by_cases hnull : pv0 = Doc.null
    · subst hnull
      rw [Doc.apply_step_null]
      exact ihr _ hf
    · rw [Doc.apply_step_set t k0 pv0 rest hnull]
      exact ihr _ hf

theorem Doc.isObj_of_isFields {t : Doc} (h : t.isFields = true) : t.isObj = true := by
  cases t <;> simp_all [Doc.isFields, Doc.isObj]

theorem Doc.lookup_cons_isSome {rest : Doc} {key k0 : String} {v : Doc}
    (h : (rest.lookup key).isSome = true) :
    ((Doc.objCons k0 v rest).lookup key).isSome = true := by
  by_cases hk : key = k0 <;> simp [Doc.lookup, hk, h]

theorem Doc.removals_lookup : ∀ (l d : Doc) (key : String),
    (l.removals d).lookup key =
      if (l.lookup key).isSome && (d.lookup key).isNone then some Doc.null
      else none := by
  intro l
  induction l with
  | null => intro d key; simp [Doc.removals, Doc.lookup]
  | str s => intro d key; simp [Doc.removals, Doc.lookup]
  | objNil => intro d key; simp [Doc.removals, Doc.lookup]
  | objCons k0 v rest ihv ihr =>
    intro d key
    by_cases hd0 : (d.lookup k0).isSome = true
    · simp only [Doc.removals, if_pos hd0]
      rw [ihr]
      by_cases hk : key = k0
      · subst hk
        have h1 : (d.lookup key).isNone = false := by
          simp [Option.isNone_eq_false_iff, Option.isSome_iff_exists] at hd0 ⊢
          exact hd0
        simp [h1]
      · simp [Doc.lookup, hk]
    · have hd0f : (d.lookup k0).isSome = false := by
        simpa using hd0
      simp only [Doc.removals, hd0f, if_false, Bool.false_eq_true]
      by_cases hk : key = k0
      · subst hk
        have h1 : (d.lookup key).isNone = true := by
          simp [Option.isNone_iff_eq_none]
          simpa [Option.isSome_iff_exists, Option.eq_none_iff_forall_not_mem] using hd0
        simp [Doc.lookup, h1]
      · simp only [Doc.lookup, if_neg hk]
        rw [ihr]

theorem Doc.removals_isFields : ∀ (l d : Doc), (l.removals d).isFields = true := by
  intro l
  induction l with
  | null => intro d; rfl
  | str s => intro d; rfl
  | objNil => intro d; rfl
  | objCons k0 v rest ihv ihr =>
    intro d
    by_cases hd0 : (d.lookup k0).isSome = true <;>
      simp [Doc.removals, hd0, Doc.isFields, ihr]

theorem Doc.removals_nodupTop : ∀ (l d : Doc),
    l.nodupTop = true → (l.removals d).nodupTop = true := by
  intro l
  induction l with
  | null => intro d _; rfl
  | str s => intro d _; rfl
  | objNil => intro d _; rfl
  | objCons k0 v rest ihv ihr =>
    intro d hn
    simp only [Doc.nodupTop, Bool.and_eq_true] at hn
    by_cases hd0 : (d.lookup k0).isSome = true
    · simp only [Doc.removals, if_pos hd0]
      exact ihr d hn.2
    · have hd0f : (d.lookup k0).isSome = false := by simpa using hd0
      simp only [Doc.removals, hd0f, if_false, Bool.false_eq_true]
      simp only [Doc.nodupTop, Bool.and_eq_true]
      refine ⟨?_, ihr d hn.2⟩
      rw [Doc.removals_lookup]
      have : (rest.lookup k0).isSome = false := by
        have := hn.1
        simp [Option.isNone_iff_eq_none] at this
        simp [this]
      simp [this]

theorem Doc.isFields_fappend : ∀ (a b : Doc),
    a.isFields = true → b.isFields = true → (a.fappend b).isFields = true := by
  intro a
  induction a with
  | null => intro b ha _; simp [Doc.isFields] at ha
  | str s => intro b ha _; simp [Doc.isFields] at ha
  | objNil => intro b _ hb; simpa [Doc.fappend]
  | objCons k0 v rest ihv ihr =>
    intro b ha hb
    simp only [Doc.isFields] at ha
    simp only [Doc.fappend, Doc.isFields]
    exact ihr b ha hb

theorem Doc.isObj_fappend {a b : Doc} (hb : b.isObj = true) :
    (a.fappend b).isObj = true := by
  cases a with
  | null => simpa [Doc.fappend] using hb
  | str s => simpa [Doc.fappend] using hb
  | objNil => simpa [Doc.fappend] using hb
  | objCons k v rest => simp [Doc.fappend, Doc.isObj]

theorem Doc.fappend_objNil : ∀ (a : Doc), a.isFields = true →
    a.fappend Doc.objNil = a := by
  intro a
  induction a with
  | null => intro ha; simp [Doc.isFields] at ha
  | str s => intro ha; simp [Doc.isFields] at ha
  | objNil => intro _; rfl
  | objCons k0 v rest ihv ihr =>
    intro ha
    simp only [Doc.isFields] at ha
    simp only [Doc.fappend]
    rw [ihr ha]

theorem Doc.nodupTop_fappend : ∀ (a b : Doc),
    a.nodupTop = true → b.nodupTop = true →
    (∀ key, (a.lookup key).isSome = true → (b.lookup key).isSome = false) →
    (a.fappend b).nodupTop = true := by
  intro a
  induction a with
  | null => intro b _ hb _; simpa [Doc.fappend]
  | str s => intro b _ hb _; simpa [Doc.fappend]
  | objNil => intro b _ hb _; simpa [Doc.fappend]
  | objCons k0 v rest ihv ihr =>
    intro b ha hb hdisj
    simp only [Doc.nodupTop, Bool.and_eq_true] at ha
    simp only [Doc.fappend, Doc.nodupTop, Bool.and_eq_true]
    constructor
    · rw [Doc.lookup_fappend]
      have h1 : rest.lookup k0 = none := by
        have := ha.1
        simpa [Option.isNone_iff_eq_none] using this
      rw [h1]
      have h2 : (b.lookup k0).isSome = false :=
        hdisj k0 (by simp [Doc.lookup])
      simp [Option.isNone_iff_eq_none] at h2 ⊢
      simpa [Option.isSome_iff_exists, Option.eq_none_iff_forall_not_mem] using h2
    · exact ihr b ha.2 hb
        (fun key hk => hdisj key (Doc.lookup_cons_isSome hk))

theorem Doc.chg_nonCons (l d : Doc) (hd : ∀ k dv rest, d ≠ Doc.objCons k dv rest) :
    Doc.chg l d = Doc.objNil := by
  cases d with
  | objCons k dv rest => exact absurd rfl (hd k dv rest)
  | null => rfl
  | str s => rfl
  | objNil => rfl

theorem Doc.chg_step_newnull {l : Doc} {k0 : String} {rest : Doc}
    (h : l.lookup k0 = none) :
    Doc.chg l (Doc.objCons k0 Doc.null rest) = Doc.chg l rest := by
  unfold Doc.chg
  simp [Doc.difm, h]

theorem Doc.chg_step_new {l : Doc} {k0 : String} {dv0 rest : Doc}
    (h : l.lookup k0 = none) (hnn : dv0 ≠ Doc.null) :
    Doc.chg l (Doc.objCons k0 dv0 rest) = Doc.objCons k0 dv0 (Doc.chg l rest) := by
  unfold Doc.chg
  simp [Doc.difm, h, hnn]

theorem Doc.chg_step_skip {l : Doc} {k0 : String} {dv0 rest lv : Doc}
    (h : l.lookup k0 = some lv) (hq : Doc.effEq lv dv0 = true) :
    Doc.chg l (Doc.objCons k0 dv0 rest) = Doc.chg l rest := by
  unfold Doc.chg
  simp only [Doc.difm, h, hq, if_true]

theorem Doc.chg_step_diffc {l : Doc} {k0 : String} {dv0 rest lv : Doc}
    (h : l.lookup k0 = some lv) (hq : Doc.effEq lv dv0 = false) :
    Doc.chg l (Doc.objCons k0 dv0 rest) =
      Doc.objCons k0 (Doc.diff lv dv0) (Doc.chg l rest) := by
  unfold Doc.chg Doc.diff
  simp [Doc.difm, h, hq]

theorem Doc.diff_obj_cons {l : Doc} (hl : l.isObj = true) (k0 : String)
    (dv0 rest : Doc) :
    Doc.diff l (Doc.objCons k0 dv0 rest) =
      Doc.fappend (l.removals (Doc.objCons k0 dv0 rest))
        (Doc.chg l (Doc.objCons k0 dv0 rest)) := by
  unfold Doc.diff Doc.chg
  simp only [Doc.difm, hl, if_true]

theorem Doc.diff_objNil {l : Doc} (hl : l.isObj = true) :
    Doc.diff l Doc.objNil = l.removals Doc.objNil := by
  unfold Doc.diff
  simp only [Doc.difm, hl, if_true]

theorem Doc.chg_lookup_step {l : Doc} {k0 : String} {dv0 rest : Doc}
    {key : String} (hk : key ≠ k0) :
    (Doc.chg l (Doc.objCons k0 dv0 rest)).lookup key =
      (Doc.chg l rest).lookup key := by
  cases hl0 : l.lookup k0 with
  | none =>
    by_cases hnull : dv0 = Doc.null
    · subst hnull
      rw [Doc.chg_step_newnull hl0]
    · rw [Doc.chg_step_new hl0 hnull]
      simp [Doc.lookup, hk]
  | some lv0 =>
    by_cases hq : Doc.effEq lv0 dv0 = true
    · rw [Doc.chg_step_skip hl0 hq]
    · rw [Doc.chg_step_diffc hl0 (by simpa using hq)]
      simp [Doc.lookup, hk]

theorem Doc.chg_lookup_none_d : ∀ (d l : Doc) (key : String),
    d.lookup key = none → (Doc.chg l d).lookup key = none := by
  intro d
  induction d with
  | null => intro l key _; rfl
  | str s => intro l key _; rfl
  | objNil => intro l key _; rfl
  | objCons k0 dv0 rest ihv ihr =>
    intro l key h
    simp only [Doc.lookup] at h
    by_cases hk : key = k0
    · rw [if_pos hk] at h; simp at h
    · rw [if_neg hk] at h
      rw [Doc.chg_lookup_step hk]
      exact ihr l key h

theorem Doc.chg_lookup_new : ∀ (d l : Doc) (key : String) (dv : Doc),
    d.nodupTop = true → d.lookup key = some dv → l.lookup key = none →
    dv ≠ Doc.null → (Doc.chg l d).lookup key = some dv := by
  intro d
  induction d with
  | null => intro l key dv _ h _ _; simp [Doc.lookup] at h
  | str s => intro l key dv _ h _ _; simp [Doc.lookup] at h
  | objNil => intro l key dv _ h _ _; simp [Doc.lookup] at h
  | objCons k0 dv0 rest ihv ihr =>
    intro l key dv hn h hl hnn
    simp only [Doc.nodupTop, Bool.and_eq_true] at hn
    simp only [Doc.lookup] at h
    by_cases hk : key = k0
    · rw [if_pos hk] at h
      have hdv : dv0 = dv := by cases h; rfl
      subst hdv
      subst hk
      rw [Doc.chg_step_new hl hnn]
      simp [Doc.lookup]
    · rw [if_neg hk] at h
      rw [Doc.chg_lookup_step hk]
      exact ihr l key dv hn.2 h hl hnn

theorem Doc.chg_lookup_newnull : ∀ (d l : Doc) (key : String),
    d.nodupTop = true → d.lookup key = some Doc.null → l.lookup key = none →
    (Doc.chg l d).lookup key = none := by
  intro d
  induction d with
  | null => intro l key _ h _; simp [Doc.lookup] at h
  | str s => intro l key _ h _; simp [Doc.lookup] at h
  | objNil => intro l key _ h _; simp [Doc.lookup] at h
  | objCons k0 dv0 rest ihv ihr =>
    intro l key hn h hl
    simp only [Doc.nodupTop, Bool.and_eq_true] at hn
    simp only [Doc.lookup] at h
    by_cases hk : key = k0
    · rw [if_pos hk] at h
      have hdv : dv0 = Doc.null := by cases h; rfl
      subst hdv
      subst hk
      rw [Doc.chg_step_newnull hl]
      apply Doc.chg_lookup_none_d
      have := hn.1
      simpa [Option.isNone_iff_eq_none] using this
    · rw [if_neg hk] at h
      rw [Doc.chg_lookup_step hk]
      exact ihr l key hn.2 h hl

theorem Doc.chg_lookup_skip : ∀ (d l : Doc) (key : String) (dv lv : Doc),
    d.nodupTop = true → d.lookup key = some dv → l.lookup key = some lv →
    Doc.effEq lv dv = true → (Doc.chg l d).lookup key = none := by
  intro d
  induction d with
  | null => intro l key dv lv _ h _ _; simp [Doc.lookup] at h
  | str s => intro l key dv lv _ h _ _; simp [Doc.lookup] at h
  | objNil => intro l key dv lv _ h _ _; simp [Doc.lookup] at h
  | objCons k0 dv0 rest ihv ihr =>
    intro l key dv lv hn h hl hq
    simp only [Doc.nodupTop, Bool.and_eq_true] at hn
    simp only [Doc.lookup] at h
    by_cases hk : key = k0
    · rw [if_pos hk] at h
      have hdv : dv0 = dv := by cases h; rfl
      subst hdv
      subst hk
      rw [Doc.chg_step_skip hl hq]
      apply Doc.chg_lookup_none_d
      have := hn.1
      simpa [Option.isNone_iff_eq_none] using this
    · rw [if_neg hk] at h
      rw [Doc.chg_lookup_step hk]
      exact ihr l key dv lv hn.2 h hl hq

theorem Doc.chg_lookup_diffc : ∀ (d l : Doc) (key : String) (dv lv : Doc),
    d.nodupTop = true → d.lookup key = some dv → l.lookup key = some lv →
    Doc.effEq lv dv = false →
    (Doc.chg l d).lookup key = some (Doc.diff lv dv) := by
  intro d
  induction d with
  | null => intro l key dv lv _ h _ _; simp [Doc.lookup] at h
  | str s => intro l key dv lv _ h _ _; simp [Doc.lookup] at h
  | objNil => intro l key dv lv _ h _ _; simp [Doc.lookup] at h
  | objCons k0 dv0 rest ihv ihr =>
    intro l key dv lv hn h hl hq
    simp only [Doc.nodupTop, Bool.and_eq_true] at hn
    simp only [Doc.lookup] at h
    by_cases hk : key = k0
    · rw [if_pos hk] at h
      have hdv : dv0 = dv := by cases h; rfl
      subst hdv
      subst hk
      rw [Doc.chg_step_diffc hl hq]
      simp [Doc.lookup]
    · rw [if_neg hk] at h
      rw [Doc.chg_lookup_step hk]
      exact ihr l key dv lv hn.2 h hl hq

theorem Doc.chg_isFields : ∀ (d l : Doc), (Doc.chg l d).isFields = true := by
  intro d
  induction d with
  | null => intro l; rfl
  | str s => intro l; rfl
  | objNil => intro l; rfl
  | objCons k0 dv0 rest ihv ihr =>
    intro l
    cases hl0 : l.lookup k0 with
    | none =>
      by_cases hnull : dv0 = Doc.null
      · subst hnull
        rw [Doc.chg_step_newnull hl0]
        exact ihr l
      · rw [Doc.chg_step_new hl0 hnull]
        simp only [Doc.isFields]
        exact ihr l
    | some lv0 =>
      by_cases hq0 : Doc.effEq lv0 dv0 = true
      · rw [Doc.chg_step_skip hl0 hq0]
        exact ihr l
      · rw [Doc.chg_step_diffc hl0 (by simpa using hq0)]
        simp only [Doc.isFields]
        exact ihr l

theorem Doc.chg_nodupTop : ∀ (d l : Doc),
    d.nodupTop = true → (Doc.chg l d).nodupTop = true := by
  intro d
  induction d with
  | null => intro l _; rfl
  | str s => intro l _; rfl
  | objNil => intro l _; rfl
  | objCons k0 dv0 rest ihv ihr =>
    intro l hn
    simp only [Doc.nodupTop, Bool.and_eq_true] at hn
    have hrest : rest.lookup k0 = none := by
      have := hn.1
      simpa [Option.isNone_iff_eq_none] using this
    cases hl0 : l.lookup k0 with
    | none =>
      by_cases hnull : dv0 = Doc.null
      · subst hnull
        rw [Doc.chg_step_newnull hl0]
        exact ihr l hn.2
      · rw [Doc.chg_step_new hl0 hnull]
        simp only [Doc.nodupTop, Bool.and_eq_true]
        refine ⟨?_, ihr l hn.2⟩
        rw [Doc.chg_lookup_none_d rest l k0 hrest]
        rfl
    | some lv0 =>
      by_cases hq0 : Doc.effEq lv0 dv0 = true
      · rw [Doc.chg_step_skip hl0 hq0]
        exact ihr l hn.2
      · rw [Doc.chg_step_diffc hl0 (by simpa using hq0)]
        simp only [Doc.nodupTop, Bool.and_eq_true]
        refine ⟨?_, ihr l hn.2⟩
        rw [Doc.chg_lookup_none_d rest l k0 hrest]
        rfl

theorem Doc.diff_nonobj_l {l d : Doc} (hl : l.isObj = false) (hd : d.isObj = true) :
    Doc.diff l d = d := by
  cases d with
  | null => simp [Doc.isObj] at hd
  | str s => simp [Doc.isObj] at hd
  | objNil => unfold Doc.diff; simp [Doc.difm, hl]
  | objCons k dv rest => unfold Doc.diff; simp [Doc.difm, hl]

theorem Doc.diff_scalar {l d : Doc} (hd : d.isObj = false) : Doc.diff l d = d := by
  cases d with
  | null => rfl
  | str s => rfl
  | objNil => simp [Doc.isObj] at hd
  | objCons k dv rest => simp [Doc.isObj] at hd

theorem Doc.diff_obj_eq {l d : Doc} (hl : l.isObj = true) (hd : d.isObj = true) :
    Doc.diff l d = Doc.fappend (l.removals d) (Doc.chg l d) := by
  cases d with
  | null => simp [Doc.isObj] at hd
  | str s => simp [Doc.isObj] at hd
  | objNil =>
    rw [Doc.diff_objNil hl]
    have : Doc.chg l Doc.objNil = Doc.objNil := rfl
    rw [this, Doc.fappend_objNil _ (Doc.removals_isFields l Doc.objNil)]
  | objCons k dv rest => exact Doc.diff_obj_cons hl k dv rest

theorem Doc.diff_lookup_remove {l d : Doc} {key : String}
    (hl : l.isObj = true) (hd : d.isObj = true)
    (h1 : d.lookup key = none) (h2 : (l.lookup key).isSome = true) :
    (Doc.diff l d).lookup key = some Doc.null := by
  rw [Doc.diff_obj_eq hl hd, Doc.lookup_fappend, Doc.removals_lookup]
  simp [h1, h2]

theorem Doc.diff_lookup_absent {l d : Doc} {key : String}
    (hl : l.isObj = true) (hd : d.isObj = true)
    (h1 : d.lookup key = none) (h2 : l.lookup key = none) :
    (Doc.diff l d).lookup key = none := by
  rw [Doc.diff_obj_eq hl hd, Doc.lookup_fappend, Doc.removals_lookup]
  simp [h1, h2]
  exact Doc.chg_lookup_none_d d l key h1

theorem Doc.diff_lookup_new {l d : Doc} {key : String} {dv : Doc}
    (hl : l.isObj = true) (hd : d.isObj = true) (hdn : d.nodupTop = true)
    (h1 : d.lookup key = some dv) (h2 : l.lookup key = none)
    (hnn : dv ≠ Doc.null) :
    (Doc.diff l d).lookup key = some dv := by
  rw [Doc.diff_obj_eq hl hd, Doc.lookup_fappend, Doc.removals_lookup]
  simp [h1]
  exact Doc.chg_lookup_new d l key dv hdn h1 h2 hnn

theorem Doc.diff_lookup_newnull {l d : Doc} {key : String}
    (hl : l.isObj = true) (hd : d.isObj = true) (hdn : d.nodupTop = true)
    (h1 : d.lookup key = some Doc.null) (h2 : l.lookup key = none) :
    (Doc.diff l d).lookup key = none := by
  rw [Doc.diff_obj_eq hl hd, Doc.lookup_fappend, Doc.removals_lookup]
  simp [h1]
  exact Doc.chg_lookup_newnull d l key hdn h1 h2

theorem Doc.diff_lookup_skip {l d : Doc} {key : String} {dv lv : Doc}
    (hl : l.isObj = true) (hd : d.isObj = true) (hdn : d.nodupTop = true)
    (h1 : d.lookup key = some dv) (h2 : l.lookup key = some lv)
    (hq : Doc.effEq lv dv = true) :
    (Doc.diff l d).lookup key = none := by
  rw [Doc.diff_obj_eq hl hd, Doc.lookup_fappend, Doc.removals_lookup]
  simp [h1]
  exact Doc.chg_lookup_skip d l key dv lv hdn h1 h2 hq

theorem Doc.diff_lookup_diffc {l d : Doc} {key : String} {dv lv : Doc}
    (hl : l.isObj = true) (hd : d.isObj = true) (hdn : d.nodupTop = true)
    (h1 : d.lookup key = some dv) (h2 : l.lookup key = some lv)
    (hq : Doc.effEq lv dv = false) :
    (Doc.diff l d).lookup key = some (Doc.diff lv dv) := by
  rw [Doc.diff_obj_eq hl hd, Doc.lookup_fappend, Doc.removals_lookup]
  simp [h1]
  exact Doc.chg_lookup_diffc d l key dv lv hdn h1 h2 hq

theorem Doc.diff_nodupTop {l d : Doc}
    (hln : l.nodupTop = true) (hdn : d.nodupTop = true) :
    (Doc.diff l d).nodupTop = true := by
  by_cases hd : d.isObj = true
  · by_cases hl : l.isObj = true
    · rw [Doc.diff_obj_eq hl hd]
      refine Doc.nodupTop_fappend _ _ (Doc.removals_nodupTop l d hln)
        (Doc.chg_nodupTop d l hdn) ?_
      intro key hkey
      rw [Doc.removals_lookup] at hkey
      by_cases hc : ((l.lookup key).isSome && (d.lookup key).isNone) = true
      · have hdnone : d.lookup key = none := by
          have := (Bool.and_eq_true _ _).mp hc
          simpa [Option.isNone_iff_eq_none] using this.2
        rw [Doc.chg_lookup_none_d d l key hdnone]
        rfl
      · rw [if_neg hc] at hkey
        simp at hkey
    · rw [Doc.diff_nonobj_l (by simpa using hl) hd]
      exact hdn
  · rw [Doc.diff_scalar (by simpa using hd)]
    exact hdn

theorem Doc.diff_isFields {l d : Doc} (hd : d.isFields = true) :
    (Doc.diff l d).isFields = true := by
  have hdo : d.isObj = true := Doc.isObj_of_isFields hd
  by_cases hl : l.isObj = true
  · rw [Doc.diff_obj_eq hl hdo]
    exact Doc.isFields_fappend _ _ (Doc.removals_isFields l d) (Doc.chg_isFields d l)
  · rw [Doc.diff_nonobj_l (by simpa using hl) hdo]
    exact hd

theorem Doc.diff_ne_null {lv dv : Doc} (hnn : dv ≠ Doc.null) :
    Doc.diff lv dv ≠ Doc.null := by
  cases dv with
  | null => exact absurd rfl hnn
  | str s =>
    rw [Doc.diff_scalar (by simp [Doc.isObj])]
    simp
  | objNil =>
    by_cases hl : lv.isObj = true
    · rw [Doc.diff_objNil hl]
      exact Doc.ne_null_of_isObj
        (Doc.isObj_of_isFields (Doc.removals_isFields lv Doc.objNil))
    · rw [Doc.diff_nonobj_l (by simpa using hl) (by simp [Doc.isObj])]
      simp
  | objCons k dv0 rest =>
    by_cases hl : lv.isObj = true
    · rw [Doc.diff_obj_cons hl]
      exact Doc.ne_null_of_isObj (Doc.isObj_fappend
        (Doc.isObj_of_isFields (Doc.chg_isFields _ lv)))
    · rw [Doc.diff_nonobj_l (by simpa using hl) (by simp [Doc.isObj])]
      simp

theorem Doc.keysIncl_lookup : ∀ (c b : Doc) (key : String),
    c.keysIncl b = true → (c.lookup key).isSome = true →
    (b.lookup key).isSome = true := by
  intro c
  induction c with
  | null => intro b key _ h; simp [Doc.lookup] at h
  | str s => intro b key _ h; simp [Doc.lookup] at h
  | objNil => intro b key _ h; simp [Doc.lookup] at h
  | objCons k0 v0 rest ihv ihr =>
    intro b key hincl h
    simp only [Doc.keysIncl, Bool.and_eq_true] at hincl
    simp only [Doc.lookup] at h
    by_cases hk : key = k0
    · subst hk
      exact hincl.1
    · rw [if_neg hk] at h
      exact ihr b key hincl.2 h

theorem Doc.keysIncl_of : ∀ (c b : Doc),
    (∀ key, (c.lookup key).isSome = true → (b.lookup key).isSome = true) →
    c.keysIncl b = true := by
  intro c
  induction c with
  | null => intro b _; rfl
  | str s => intro b _; rfl
  | objNil => intro b _; rfl
  | objCons k0 v0 rest ihv ihr =>
    intro b h
    simp only [Doc.keysIncl, Bool.and_eq_true]
    constructor
    · exact h k0 (by simp [Doc.lookup])
    · exact ihr b (fun key hk => h key (Doc.lookup_cons_isSome hk))

theorem Doc.entriesIn_lookup : ∀ (c b : Doc) (key : String) (v : Doc),
    Doc.eqv false c b = true → c.lookup key = some v →
    ∃ w, b.lookup key = some w ∧ Doc.eqv true v w = true := by
  intro c
  induction c with
  | null => intro b key v _ h; simp [Doc.lookup] at h
  | str s => intro b key v _ h; simp [Doc.lookup] at h
  | objNil => intro b key v _ h; simp [Doc.lookup] at h
  | objCons k0 v0 rest ihv ihr =>
    intro b key v he h
    simp only [Doc.eqv, Bool.and_eq_true] at he
    simp only [Doc.lookup] at h
    cases hb : b.lookup k0 with
    | none =>
      rw [hb] at he
      simp at he
    | some w0 =>
      rw [hb] at he
      by_cases hk : key = k0
      · subst hk
        rw [if_pos rfl] at h
        have hv : v0 = v := by cases h; rfl
        subst hv
        exact ⟨w0, hb, he.1⟩
      · rw [if_neg hk] at h
        exact ihr b key v he.2 h

theorem Doc.entriesIn_of : ∀ (c b : Doc),
    c.nodupTop = true →
    (∀ key v, c.lookup key = some v →
      ∃ w, b.lookup key = some w ∧ Doc.eqv true v w = true) →
    Doc.eqv false c b = true := by
  intro c
  induction c with
  | null => intro b _ _; rfl
  | str s => intro b _ _; rfl
  | objNil => intro b _ _; rfl
  | objCons k0 v0 rest ihv ihr =>
    intro b hn h
    simp only [Doc.nodupTop, Bool.and_eq_true] at hn
    obtain ⟨w, hbw, hvw⟩ := h k0 v0 (by simp [Doc.lookup])
    simp only [Doc.eqv, hbw, Bool.and_eq_true]
    refine ⟨hvw, ?_⟩
    refine ihr b hn.2 ?_
    intro key v hkv
    by_cases hk : key = k0
    · subst hk
      have : rest.lookup key = none := by
        have := hn.1
        simpa [Option.isNone_iff_eq_none] using this
      rw [this] at hkv
      cases hkv
    · refine h key v ?_
      simp [Doc.lookup, if_neg hk, hkv]

theorem Doc.eqv_true_obj : ∀ (c b : Doc), c.isObj = true →
    Doc.eqv true c b = (b.isObj && b.keysIncl c && Doc.eqv false c b) := by
  intro c b hc
  cases c with
  | null => simp [Doc.isObj] at hc
  | str s => simp [Doc.isObj] at hc
  | objNil => simp [Doc.eqv]
  | objCons k0 v0 rest =>
    simp only [Doc.eqv, Bool.and_assoc]

theorem Doc.eqv_refl_fuel : ∀ (n : Nat) (d : Doc), sizeOf d ≤ n →
    d.wfDoc = true → Doc.eqv true d d = true := by
  intro n
  induction n with
  | zero =>
    intro d h _
    exfalso
    cases d <;> simp at h
  | succ n ih =>
    intro d hsz hwf
    cases d with
    | null => rfl
    | str s => simp [Doc.eqv]
    | objNil => rfl
    | objCons k0 v0 rest =>
      rw [Doc.eqv_true_obj _ _ (by simp [Doc.isObj])]
      simp only [Bool.and_eq_true]
      refine ⟨⟨by simp [Doc.isObj], ?_⟩, ?_⟩
      · exact Doc.keysIncl_of _ _ (fun key hk => hk)
      · refine Doc.entriesIn_of _ _ (Doc.wfDoc_nodupTop _ hwf) ?_
        intro key v hkv
        refine ⟨v, hkv, ?_⟩
        refine ih v ?_ (Doc.wfDoc_lookup _ key v hwf hkv)
        have := Doc.sizeOf_lookup _ key v hkv
        omega

theorem Doc.eqv_refl {d : Doc} (h : d.wfDoc = true) : Doc.eqv true d d = true :=
  Doc.eqv_refl_fuel (sizeOf d) d le_rfl h

theorem Doc.deq_refl {d : Doc} (h : d.wfDoc = true) : Doc.deq d d = true := by
  unfold Doc.deq
  rw [Doc.eqv_refl h]
  rfl

theorem Doc.lookup_objNil (key : String) : Doc.objNil.lookup key = none := rfl

theorem Doc.deq_split {a b : Doc} (h : Doc.deq a b = true) :
    Doc.eqv true a b = true ∧ Doc.eqv true b a = true := by
  unfold Doc.deq at h
  exact (Bool.and_eq_true _ _).mp h

theorem Doc.deq_mk {a b : Doc} (h1 : Doc.eqv true a b = true)
    (h2 : Doc.eqv true b a = true) : Doc.deq a b = true := by
  unfold Doc.deq
  rw [h1, h2]
  rfl

theorem Doc.apply_nonobj {t : Doc} (h : t.isObj = false) (pf : Doc) :
    Doc.apply t pf = Doc.apply Doc.objNil pf := by
  cases t with
  | objNil => rfl
  | objCons k v rest => simp [Doc.isObj] at h
  | null =>
    cases pf with
    | null => rfl
    | str s => rfl
    | objNil => rfl
    | objCons k pv rest => rfl
  | str s0 =>
    cases pf with
    | null => rfl
    | str s => rfl
    | objNil => rfl
    | objCons k pv rest => rfl

theorem Doc.apply_null_patch (t : Doc) : Doc.apply t Doc.null = Doc.null := rfl

theorem Doc.apply_str_patch (t : Doc) (s : String) :
    Doc.apply t (Doc.str s) = Doc.str s := rfl

theorem Doc.eqv_true_null {b : Doc} (h : b ≠ Doc.null) :
    Doc.eqv true Doc.null b = false := by
  cases b with
  | null => exact absurd rfl h
  | str s => rfl
  | objNil => rfl
  | objCons k v rest => rfl

theorem Doc.effEq_null_right {lv : Doc} (h : lv ≠ Doc.null) :
    Doc.effEq lv Doc.null = false := by
  unfold Doc.effEq
  rw [Doc.apply_null_patch]
  unfold Doc.deq
  rw [Doc.eqv_true_null h]
  rfl

theorem Doc.wfDoc_norm {t : Doc} (h : t.wfDoc = true) :
    (if t.isObj then t else Doc.objNil).wfDoc = true := by
  by_cases h2 : t.isObj = true
  · rw [if_pos h2]; exact h
  · rw [if_neg h2]; rfl

theorem Doc.wfDoc_getOr {t : Doc} (h : t.wfDoc = true) (key : String) :
    (t.getOr key).wfDoc = true := by
  unfold Doc.getOr
  cases hl : t.lookup key with
  | none => rfl
  | some v => exact Doc.wfDoc_lookup t key v h hl

theorem Doc.isObj_setKey (t : Doc) (k : String) (nv : Doc) :
    (t.setKey k nv).isObj = true := by
  cases t with
  | null => simp [Doc.setKey, Doc.isObj]
  | str s => simp [Doc.setKey, Doc.isObj]
  | objNil => simp [Doc.setKey, Doc.isObj]
  | objCons k0 v rest =>
    by_cases h : k = k0 <;> simp [Doc.setKey, h, Doc.isObj]

theorem Doc.wfDoc_erase_isObj : ∀ (t : Doc) (k : String), t.wfDoc = true →
    (t.erase k).wfDoc = true ∧ (t.erase k).isObj = t.isObj := by
  intro t
  induction t with
  | null => intro k h; exact ⟨h, rfl⟩
  | str s => intro k h; exact ⟨h, rfl⟩
  | objNil => intro k h; exact ⟨h, rfl⟩
  | objCons k0 v rest ihv ihr =>
    intro k h
    simp only [Doc.wfDoc, Bool.and_eq_true] at h
    obtain ⟨⟨⟨h1, h2⟩, h3⟩, h4⟩ := h
    by_cases hk : k = k0
    · subst hk
      have he : Doc.erase (Doc.objCons k v rest) k = rest.erase k := by
        simp [Doc.erase]
      rw [he]
      refine ⟨(ihr k h4).1, ?_⟩
      rw [(ihr k h4).2, h2]
      rfl
    · simp only [Doc.erase, if_neg hk]
      constructor
      · simp only [Doc.wfDoc, Bool.and_eq_true]
        refine ⟨⟨⟨?_, ?_⟩, h3⟩, (ihr k h4).1⟩
        · rw [Doc.lookup_erase]
          simp [show k0 ≠ k from fun hh => hk hh.symm, h1]
        · rw [(ihr k h4).2]; exact h2
      · rfl

theorem Doc.wfDoc_setKey : ∀ (t : Doc) (k : String) (nv : Doc),
    t.isObj = true → t.wfDoc = true → nv.wfDoc = true →
    (t.setKey k nv).wfDoc = true := by
  intro t
  induction t with
  | null => intro k nv ho _ _; simp [Doc.isObj] at ho
  | str s => intro k nv ho _ _; simp [Doc.isObj] at ho
  | objNil =>
    intro k nv _ _ hnv
    simp [Doc.setKey, Doc.wfDoc, Doc.lookup, Doc.isObj, hnv]
  | objCons k0 v rest ihv ihr =>
    intro k nv _ h hnv
    simp only [Doc.wfDoc, Bool.and_eq_true] at h
    obtain ⟨⟨⟨h1, h2⟩, h3⟩, h4⟩ := h
    by_cases hk : k = k0
    · subst hk
      simp only [Doc.setKey, if_pos rfl]
      simp only [Doc.wfDoc, Bool.and_eq_true]
      exact ⟨⟨⟨h1, h2⟩, hnv⟩, h4⟩
    · simp only [Doc.setKey, if_neg hk]
      simp only [Doc.wfDoc, Bool.and_eq_true]
      refine ⟨⟨⟨?_, Doc.isObj_setKey rest k nv⟩, h3⟩, ihr k nv h2 h4 hnv⟩
      rw [Doc.lookup_setKey]
      simp [show k0 ≠ k from fun hh => hk hh.symm, h1]

theorem Doc.wfDoc_apply : ∀ (pf t : Doc), pf.wfDoc = true → t.wfDoc = true →
    (Doc.apply t pf).wfDoc = true := by
  intro pf
  induction pf with
  | null => intro t _ _; rfl
  | str s => intro t _ _; rfl
  | objNil => intro t _ ht; exact Doc.wfDoc_norm ht
  | objCons k0 pv rest ihv ihr =>
    intro t h ht
    simp only [Doc.wfDoc, Bool.and_eq_true] at h
    obtain ⟨⟨⟨h1, h2⟩, h3⟩, h4⟩ := h
    have htf : (if t.isObj then t else Doc.objNil).wfDoc = true := Doc.wfDoc_norm ht
    have htfo : (if t.isObj then t else Doc.objNil).isObj = true := Doc.isObj_norm t
    by_cases hnull : pv = Doc.null
    · subst hnull
      rw [Doc.apply_step_null]
      exact ihr _ h4 (Doc.wfDoc_erase_isObj _ k0 htf).1
    · rw [Doc.apply_step_set t k0 pv rest hnull]
      refine ihr _ h4 ?_
      refine Doc.wfDoc_setKey _ k0 _ htfo htf ?_
      exact ihv _ h3 (Doc.wfDoc_getOr htf k0)

theorem Doc.wfDoc_fappend : ∀ (a b : Doc),
    a.wfDoc = true → b.wfDoc = true → b.isObj = true →
    (∀ key, (a.lookup key).isSome = true → (b.lookup key).isSome = false) →
    (a.fappend b).wfDoc = true := by
  intro a
  induction a with
  | null => intro b _ hb _ _; simpa [Doc.fappend]
  | str s => intro b _ hb _ _; simpa [Doc.fappend]
  | objNil => intro b _ hb _ _; simpa [Doc.fappend]
  | objCons k0 v rest ihv ihr =>
    intro b ha hb hbo hdisj
    simp only [Doc.wfDoc, Bool.and_eq_true] at ha
    obtain ⟨⟨⟨h1, h2⟩, h3⟩, h4⟩ := ha
    simp only [Doc.fappend, Doc.wfDoc, Bool.and_eq_true]
    refine ⟨⟨⟨?_, Doc.isObj_fappend hbo⟩, h3⟩,
      ihr b h4 hb hbo (fun key hk => hdisj key (Doc.lookup_cons_isSome hk))⟩
    rw [Doc.lookup_fappend]
    have hr : rest.lookup k0 = none := by
      simpa [Option.isNone_iff_eq_none] using h1
    rw [hr]
    cases hbk : b.lookup k0 with
    | none => rfl
    | some w =>
      have := hdisj k0 (by simp [Doc.lookup])
      rw [hbk] at this
      simp at this

theorem Doc.removals_wfDoc : ∀ (l d : Doc),
    l.nodupTop = true → (l.removals d).wfDoc = true := by
  intro l
  induction l with
  | null => intro d _; rfl
  | str s => intro d _; rfl
  | objNil => intro d _; rfl
  | objCons k0 v rest ihv ihr =>
    intro d hn
    simp only [Doc.nodupTop, Bool.and_eq_true] at hn
    by_cases hd0 : (d.lookup k0).isSome = true
    · simp only [Doc.removals, if_pos hd0]
      exact ihr d hn.2
    · have hd0f : (d.lookup k0).isSome = false := by simpa using hd0
      simp only [Doc.removals, hd0f, if_false, Bool.false_eq_true]
      simp only [Doc.wfDoc, Bool.and_eq_true]
      refine ⟨⟨⟨?_, Doc.isObj_of_isFields (Doc.removals_isFields rest d)⟩,
        by trivial⟩, ihr d hn.2⟩
      rw [Doc.removals_lookup]
      have : (rest.lookup k0).isSome = false := by
        have := hn.1
        simp [Option.isNone_iff_eq_none] at this
        simp [this]
      simp [this]

theorem Doc.deq_of_lookup_char {r s : Doc} (hro : r.isObj = true)
    (hso : s.isObj = true) (hrn : r.nodupTop = true) (hsn : s.nodupTop = true)
    (h : ∀ key, (r.lookup key = none ∧ s.lookup key = none) ∨
      ∃ v w, r.lookup key = some v ∧ s.lookup key = some w ∧
        Doc.deq v w = true) :
    Doc.deq r s = true := by
  refine Doc.deq_mk ?_ ?_
  · rw [Doc.eqv_true_obj _ _ hro]
    simp only [Bool.and_eq_true]
    refine ⟨⟨hso, ?_⟩, ?_⟩
    · refine Doc.keysIncl_of _ _ ?_
      intro key hk
      rcases h key with ⟨h1, h2⟩ | ⟨v, w, h1, h2, _⟩
      · rw [h2] at hk; simp at hk
      · simp [h1]
    · refine Doc.entriesIn_of _ _ hrn ?_
      intro key v hkv
      rcases h key with ⟨h1, h2⟩ | ⟨v0, w, h1, h2, hdq⟩
      · rw [h1] at hkv; cases hkv
      · rw [h1] at hkv
        have hv : v = v0 := by cases hkv; rfl
        subst hv
        exact ⟨w, h2, (Doc.deq_split hdq).1⟩
  · rw [Doc.eqv_true_obj _ _ hso]
    simp only [Bool.and_eq_true]
    refine ⟨⟨hro, ?_⟩, ?_⟩
    · refine Doc.keysIncl_of _ _ ?_
      intro key hk
      rcases h key with ⟨h1, h2⟩ | ⟨v, w, h1, h2, _⟩
      · rw [h1] at hk; simp at hk
      · simp [h2]
    · refine Doc.entriesIn_of _ _ hsn ?_
      intro key w hkw
      rcases h key with ⟨h1, h2⟩ | ⟨v, w0, h1, h2, hdq⟩
      · rw [h2] at hkw; cases hkw
      · rw [h2] at hkw
        have hw : w = w0 := by cases hkw; rfl
        subst hw
        exact ⟨v, h1, (Doc.deq_split hdq).2⟩

theorem Doc.apply_apply_deq_fuel : ∀ (n : Nat) (p : Doc), sizeOf p ≤ n →
    ∀ t, p.wfDoc = true → t.wfDoc = true →
    Doc.deq (Doc.apply (Doc.apply t p) p) (Doc.apply t p) = true := by
  intro n
  induction n with
  | zero =>
    intro p h _ _ _
    exfalso
    cases p <;> simp at h
  | succ n ih =>
    intro p hsz t hpw htw
    by_cases hpo : p.isObj = true
    · have hpf : p.isFields = true := Doc.wfDoc_isFields p hpw hpo
      have hpn : p.nodupTop = true := Doc.wfDoc_nodupTop p hpw
      have ht1w : (Doc.apply t p).wfDoc = true := Doc.wfDoc_apply p t hpw htw
      have ht1o : (Doc.apply t p).isObj = true := Doc.isObj_apply p t hpf
      have ht1n : (Doc.apply t p).nodupTop = true :=
        Doc.nodupTop_apply p t (Doc.wfDoc_nodupTop t htw)
      have ht2o : (Doc.apply (Doc.apply t p) p).isObj = true :=
        Doc.isObj_apply p _ hpf
      have ht2n : (Doc.apply (Doc.apply t p) p).nodupTop = true :=
        Doc.nodupTop_apply p _ ht1n
      refine Doc.deq_of_lookup_char ht2o ht1o ht2n ht1n ?_
      intro key
      cases hp0 : p.lookup key with
      | none =>
        have he : (Doc.apply (Doc.apply t p) p).lookup key =
            (Doc.apply t p).lookup key :=
          Doc.apply_lookup_none p _ key hpf hp0
        cases ht1k : (Doc.apply t p).lookup key with
        | none => exact Or.inl ⟨by rw [he, ht1k], rfl⟩
        | some w =>
          refine Or.inr ⟨w, w, by rw [he, ht1k], rfl, ?_⟩
          exact Doc.deq_refl (Doc.wfDoc_lookup _ key w ht1w ht1k)
      | some pv =>
        by_cases hnull : pv = Doc.null
        · subst hnull
          exact Or.inl ⟨Doc.apply_lookup_del p _ key hpf hpn hp0,
            Doc.apply_lookup_del p t key hpf hpn hp0⟩
        · have h1 : (Doc.apply t p).lookup key =
              some (Doc.apply (t.getOr key) pv) :=
            Doc.apply_lookup_set p t key pv hpf hpn hp0 hnull
          have h2 : (Doc.apply (Doc.apply t p) p).lookup key =
              some (Doc.apply ((Doc.apply t p).getOr key) pv) :=
            Doc.apply_lookup_set p _ key pv hpf hpn hp0 hnull
          have hgo : (Doc.apply t p).getOr key = Doc.apply (t.getOr key) pv :=
            Doc.getOr_eq_of_lookup h1
          rw [hgo] at h2
          refine Or.inr ⟨_, _, h2, h1, ?_⟩
          refine ih pv ?_ (t.getOr key) (Doc.wfDoc_lookup p key pv hpw hp0)
            (Doc.wfDoc_getOr htw key)
          have := Doc.sizeOf_lookup p key pv hp0
          omega
    · cases p with
      | null =>
        rw [Doc.apply_null_patch, Doc.apply_null_patch]
        rfl
      | str s =>
        rw [Doc.apply_str_patch, Doc.apply_str_patch]
        simp [Doc.deq, Doc.eqv]
      | objNil => simp [Doc.isObj] at hpo
      | objCons k v rest => simp [Doc.isObj] at hpo

theorem Doc.apply_apply_deq {p t : Doc} (hpw : p.wfDoc = true)
    (htw : t.wfDoc = true) :
    Doc.deq (Doc.apply (Doc.apply t p) p) (Doc.apply t p) = true :=
  Doc.apply_apply_deq_fuel (sizeOf p) p le_rfl t hpw htw

theorem Doc.diff_chg_wfDoc_fuel : ∀ (n : Nat) (d : Doc), sizeOf d ≤ n →
    ∀ l, l.wfDoc = true → d.wfDoc = true →
    (Doc.chg l d).wfDoc = true ∧ (Doc.diff l d).wfDoc = true := by
  intro n
  induction n with
  | zero =>
    intro d h _ _ _
    exfalso
    cases d <;> simp at h
  | succ n ih =>
    intro d hsz l hlw hdw
    have hchg : (Doc.chg l d).wfDoc = true := by
      cases d with
      | null => rfl
      | str s => rfl
      | objNil => rfl
      | objCons k0 dv0 rest =>
        have hdw2 := hdw
        simp only [Doc.wfDoc, Bool.and_eq_true] at hdw2
        obtain ⟨⟨⟨hd1, hd2⟩, hdv⟩, hdr⟩ := hdw2
        have hsz2 : sizeOf rest ≤ n := by
          simp only [Doc.objCons.sizeOf_spec] at hsz
          omega
        have hrest : (Doc.chg l rest).wfDoc = true := (ih rest hsz2 l hlw hdr).1
        have hrlk : ((Doc.chg l rest).lookup k0).isNone = true := by
          rw [Doc.chg_lookup_none_d rest l k0
            (by simpa [Option.isNone_iff_eq_none] using hd1)]
          rfl
        have hrobj : (Doc.chg l rest).isObj = true :=
          Doc.isObj_of_isFields (Doc.chg_isFields rest l)
        cases hl0 : l.lookup k0 with
        | none =>
          by_cases hnull : dv0 = Doc.null
          · subst hnull
            rw [Doc.chg_step_newnull hl0]
            exact hrest
          · rw [Doc.chg_step_new hl0 hnull]
            simp only [Doc.wfDoc, Bool.and_eq_true]
            exact ⟨⟨⟨hrlk, hrobj⟩, hdv⟩, hrest⟩
        | some lv =>
          by_cases hq : Doc.effEq lv dv0 = true
          · rw [Doc.chg_step_skip hl0 hq]
            exact hrest
          · rw [Doc.chg_step_diffc hl0 (by simpa using hq)]
            simp only [Doc.wfDoc, Bool.and_eq_true]
            refine ⟨⟨⟨hrlk, hrobj⟩, ?_⟩, hrest⟩
            have hdvsz : sizeOf dv0 ≤ n := by
              simp only [Doc.objCons.sizeOf_spec] at hsz
              omega
            exact (ih dv0 hdvsz lv (Doc.wfDoc_lookup l k0 lv hlw hl0) hdv).2
    refine ⟨hchg, ?_⟩
    by_cases hdo : d.isObj = true
    · by_cases hlo : l.isObj = true
      · rw [Doc.diff_obj_eq hlo hdo]
        refine Doc.wfDoc_fappend _ _
          (Doc.removals_wfDoc l d (Doc.wfDoc_nodupTop l hlw)) hchg
          (Doc.isObj_of_isFields (Doc.chg_isFields d l)) ?_
        intro key hkey
        rw [Doc.removals_lookup] at hkey
        by_cases hc : ((l.lookup key).isSome && (d.lookup key).isNone) = true
        · have hdnone : d.lookup key = none := by
            have := (Bool.and_eq_true _ _).mp hc
            simpa [Option.isNone_iff_eq_none] using this.2
          rw [Doc.chg_lookup_none_d d l key hdnone]
          rfl
        · rw [if_neg hc] at hkey
          simp at hkey
      · rw [Doc.diff_nonobj_l (by simpa using hlo) hdo]
        exact hdw
    · rw [Doc.diff_scalar (by simpa using hdo)]
      exact hdw

theorem Doc.diff_wfDoc {l d : Doc} (hlw : l.wfDoc = true)
    (hdw : d.wfDoc = true) : (Doc.diff l d).wfDoc = true :=
  (Doc.diff_chg_wfDoc_fuel (sizeOf d) d le_rfl l hlw hdw).2

theorem Doc.diff_effective_fuel : ∀ (n : Nat) (d : Doc), sizeOf d ≤ n →
    ∀ l, l.wfDoc = true → l.noNulls = true → d.wfDoc = true →
    Doc.effEq (Doc.apply l (Doc.diff l d)) d = true := by
  intro n
  induction n with
  | zero =>
    intro d h _ _ _ _
    exfalso
    cases d <;> simp at h
  | succ n ih =>
    intro d hsz l hlw hln hdw
    by_cases hdo : d.isObj = true
    · by_cases hlo : l.isObj = true
      · have hdf : d.isFields = true := Doc.wfDoc_isFields d hdw hdo
        have hdn : d.nodupTop = true := Doc.wfDoc_nodupTop d hdw
        have hlnod : l.nodupTop = true := Doc.wfDoc_nodupTop l hlw
        have hpw : (Doc.diff l d).wfDoc = true := Doc.diff_wfDoc hlw hdw
        have hpf : (Doc.diff l d).isFields = true := Doc.diff_isFields hdf
        have hpn : (Doc.diff l d).nodupTop = true := Doc.diff_nodupTop hlnod hdn
        have hrw : (Doc.apply l (Doc.diff l d)).wfDoc = true :=
          Doc.wfDoc_apply _ l hpw hlw
        have hro : (Doc.apply l (Doc.diff l d)).isObj = true :=
          Doc.isObj_apply _ l hpf
        have hrn : (Doc.apply l (Doc.diff l d)).nodupTop = true :=
          Doc.nodupTop_apply _ l hlnod
        have haro : (Doc.apply (Doc.apply l (Doc.diff l d)) d).isObj = true :=
          Doc.isObj_apply d _ hdf
        have harn : (Doc.apply (Doc.apply l (Doc.diff l d)) d).nodupTop = true :=
          Doc.nodupTop_apply d _ hrn
        refine Doc.deq_of_lookup_char haro hro harn hrn ?_
        intro key
        cases hd0 : d.lookup key with
        | none =>
          have he : (Doc.apply (Doc.apply l (Doc.diff l d)) d).lookup key =
              (Doc.apply l (Doc.diff l d)).lookup key :=
            Doc.apply_lookup_none d _ key hdf hd0
          cases hrk : (Doc.apply l (Doc.diff l d)).lookup key with
          | none => exact Or.inl ⟨by rw [he, hrk], rfl⟩
          | some w =>
            refine Or.inr ⟨w, w, by rw [he, hrk], rfl, ?_⟩
            exact Doc.deq_refl (Doc.wfDoc_lookup _ key w hrw hrk)
        | some dv =>
          have hdvw : dv.wfDoc = true := Doc.wfDoc_lookup d key dv hdw hd0
          by_cases hnull : dv = Doc.null
          · subst hnull
            have hL : (Doc.apply (Doc.apply l (Doc.diff l d)) d).lookup key =
                none := Doc.apply_lookup_del d _ key hdf hdn hd0
            have hR : (Doc.apply l (Doc.diff l d)).lookup key = none := by
              cases hl0 : l.lookup key with
              | none =>
                rw [Doc.apply_lookup_none _ l key hpf
                  (Doc.diff_lookup_newnull hlo hdo hdn hd0 hl0)]
                exact hl0
              | some lv =>
                have hlvne : lv ≠ Doc.null :=
                  Doc.noNulls_ne_null (Doc.noNulls_lookup l key lv hln hl0)
                have hp : (Doc.diff l d).lookup key =
                    some (Doc.diff lv Doc.null) :=
                  Doc.diff_lookup_diffc hlo hdo hdn hd0 hl0
                    (Doc.effEq_null_right hlvne)
                have hdnl : Doc.diff lv Doc.null = Doc.null :=
                  Doc.diff_scalar (by simp [Doc.isObj])
                rw [hdnl] at hp
                exact Doc.apply_lookup_del _ l key hpf hpn hp
            exact Or.inl ⟨hL, hR⟩
          · have hL : (Doc.apply (Doc.apply l (Doc.diff l d)) d).lookup key =
                some (Doc.apply ((Doc.apply l (Doc.diff l d)).getOr key) dv) :=
              Doc.apply_lookup_set d _ key dv hdf hdn hd0 hnull
            cases hl0 : l.lookup key with
            | none =>
              have hp : (Doc.diff l d).lookup key = some dv :=
                Doc.diff_lookup_new hlo hdo hdn hd0 hl0 hnull
              have hR : (Doc.apply l (Doc.diff l d)).lookup key =
                  some (Doc.apply Doc.objNil dv) := by
                rw [Doc.apply_lookup_set _ l key dv hpf hpn hp hnull,
                  Doc.getOr_eq_of_lookup_none hl0]
              rw [Doc.getOr_eq_of_lookup hR] at hL
              exact Or.inr ⟨_, _, hL, hR, Doc.apply_apply_deq hdvw rfl⟩
            | some lv =>
              have hlvw : lv.wfDoc = true := Doc.wfDoc_lookup l key lv hlw hl0
              have hlvn : lv.noNulls = true := Doc.noNulls_lookup l key lv hln hl0
              by_cases hq : Doc.effEq lv dv = true
              · have hp : (Doc.diff l d).lookup key = none :=
                  Doc.diff_lookup_skip hlo hdo hdn hd0 hl0 hq
                have hR : (Doc.apply l (Doc.diff l d)).lookup key = some lv := by
                  rw [Doc.apply_lookup_none _ l key hpf hp]
                  exact hl0
                rw [Doc.getOr_eq_of_lookup hR] at hL
                exact Or.inr ⟨_, _, hL, hR, hq⟩
              · have hqf : Doc.effEq lv dv = false := by simpa using hq
                have hp : (Doc.diff l d).lookup key =
                    some (Doc.diff lv dv) :=
                  Doc.diff_lookup_diffc hlo hdo hdn hd0 hl0 hqf
                have hpne : Doc.diff lv dv ≠ Doc.null := Doc.diff_ne_null hnull
                have hR : (Doc.apply l (Doc.diff l d)).lookup key =
                    some (Doc.apply lv (Doc.diff lv dv)) := by
                  rw [Doc.apply_lookup_set _ l key _ hpf hpn hp hpne,
                    Doc.getOr_eq_of_lookup hl0]
                rw [Doc.getOr_eq_of_lookup hR] at hL
                refine Or.inr ⟨_, _, hL, hR, ?_⟩
                have hdvsz : sizeOf dv ≤ n := by
                  have := Doc.sizeOf_lookup d key dv hd0
                  omega
                exact ih dv hdvsz lv hlvw hlvn hdvw
      · have hlof : l.isObj = false := by simpa using hlo
        rw [Doc.diff_nonobj_l hlof hdo, Doc.apply_nonobj hlof]
        exact Doc.apply_apply_deq hdw rfl
    · cases d with
      | null =>
        rw [show Doc.diff l Doc.null = Doc.null from
          Doc.diff_scalar (by simp [Doc.isObj]), Doc.apply_null_patch]
        rfl
      | str s =>
        rw [show Doc.diff l (Doc.str s) = Doc.str s from
          Doc.diff_scalar (by simp [Doc.isObj]), Doc.apply_str_patch]
        unfold Doc.effEq
        rw [Doc.apply_str_patch]
        simp [Doc.deq, Doc.eqv]
      | objNil => simp [Doc.isObj] at hdo
      | objCons k v rest => simp [Doc.isObj] at hdo

theorem Doc.diff_effective {l d : Doc} (hlw : l.wfDoc = true)
    (hln : l.noNulls = true) (hdw : d.wfDoc = true) :
    Doc.effEq (Doc.apply l (Doc.diff l d)) d = true :=
  Doc.diff_effective_fuel (sizeOf d) d le_rfl l hlw hln hdw

/-- C2: when live is absent and state is present, plan returns a
CreateAction carrying desired's full body; when live exists and state is
absent, plan returns a DeleteAction; and deleting an already-absent object
is a noop, reported as unchanged success, not an error. -/
theorem plan_create_delete_absent (d : Doc) (types : List MergeType)
    (sup : MergeType → Bool) :
    plan none d ResState.present types sup =
      PlanResult.act (PlanAction.create d) ∧
    (∀ l, plan (some l) d ResState.absent types sup =
      PlanResult.act PlanAction.deleteA) ∧
    plan none d ResState.absent types sup = PlanResult.act PlanAction.noop :=
  ⟨rfl, fun _ => rfl, rfl⟩

/-- C3: applying the action produced by plan and re-running plan against the
resulting state yields a noop action (idempotence), for every live state,
desired state (null deletion markers included) and merge-type list; and
when desired has no effective differences from live, plan signals noop,
which performs no accessor write. -/
theorem plan_idempotent (live : Option Doc) (d : Doc) (st : ResState)
    (types : List MergeType) (sup : MergeType → Bool) (a : PlanAction)
    (hwl : ∀ l, live = some l → l.wfDoc = true ∧ l.noNulls = true)
    (hwd : d.wfDoc = true)
    (hplan : plan live d st types sup = PlanResult.act a) :
    plan (applyAction live a) d st types sup =
      PlanResult.act PlanAction.noop ∧
    (∀ l, Doc.effEq l d = true →
      plan (some l) d ResState.present types sup =
        PlanResult.act PlanAction.noop ∧ writesOf PlanAction.noop = []) := by
  refine ⟨?_, fun l hdq => ⟨by simp [plan, hdq], rfl⟩⟩
  cases live with
  | none =>
    cases st with
    | present =>
      have ha : PlanAction.create d = a := by simpa [plan] using hplan
      subst ha
      have heff : Doc.effEq (Doc.apply Doc.objNil d) d = true :=
        Doc.apply_apply_deq hwd rfl
      simp [plan, applyAction, heff]
    | absent =>
      have ha : PlanAction.noop = a := by simpa [plan] using hplan
      subst ha
      rfl
  | some l =>
    cases st with
    | absent =>
      have ha : PlanAction.deleteA = a := by simpa [plan] using hplan
      subst ha
      rfl
    | present =>
      obtain ⟨hwl0, hnl0⟩ := hwl l rfl
      by_cases hdq : Doc.effEq l d = true
      · have ha : PlanAction.noop = a := by simpa [plan, hdq] using hplan
        subst ha
        simp [plan, applyAction, hdq]
      · have hdqf : Doc.effEq l d = false := by simpa using hdq
        cases hfs : firstSupported sup types with
        | none =>
          rw [show plan (some l) d ResState.present types sup =
            PlanResult.planErr types by simp [plan, hdqf, hfs]] at hplan
          cases hplan
        | some t =>
          have ha : PlanAction.patchA (Doc.diff l d) = a := by
            simpa [plan, hdqf, hfs] using hplan
          subst ha
          simp only [applyAction, Option.getD]
          simp [plan, Doc.diff_effective hwl0 hnl0 hwd]

/-- Witness for C3: patching a live object toward a desired definition that
changes one value and carries a null deletion marker for an absent key,
then re-planning, yields noop. -/
theorem plan_idempotent_witness :
    plan (applyAction
        (some (Doc.objCons "a" (Doc.str "x") (Doc.objCons "b" (Doc.str "y")
          Doc.objNil)))
        (PlanAction.patchA (Doc.diff
          (Doc.objCons "a" (Doc.str "x") (Doc.objCons "b" (Doc.str "y")
            Doc.objNil))
          (Doc.objCons "a" (Doc.str "z") (Doc.objCons "c" Doc.null
            Doc.objNil)))))
      (Doc.objCons "a" (Doc.str "z") (Doc.objCons "c" Doc.null Doc.objNil))
      ResState.present [MergeType.jsonMerge] (fun _ => true) =
      PlanResult.act PlanAction.noop ∧
    (∀ l, Doc.effEq l
        (Doc.objCons "a" (Doc.str "z") (Doc.objCons "c" Doc.null Doc.objNil)) =
        true →
      plan (some l)
        (Doc.objCons "a" (Doc.str "z") (Doc.objCons "c" Doc.null Doc.objNil))
        ResState.present [MergeType.jsonMerge] (fun _ => true) =
        PlanResult.act PlanAction.noop ∧ writesOf PlanAction.noop = []) :=
  plan_idempotent
    (some (Doc.objCons "a" (Doc.str "x") (Doc.objCons "b" (Doc.str "y")
      Doc.objNil)))
    (Doc.objCons "a" (Doc.str "z") (Doc.objCons "c" Doc.null Doc.objNil))
    ResState.present [MergeType.jsonMerge] (fun _ => true)
    (PlanAction.patchA (Doc.diff
      (Doc.objCons "a" (Doc.str "x") (Doc.objCons "b" (Doc.str "y")
        Doc.objNil))
      (Doc.objCons "a" (Doc.str "z") (Doc.objCons "c" Doc.null Doc.objNil))))
    (by intro l hl; cases hl; exact ⟨by decide, by decide⟩)
    (by decide) (by decide)

/-- C9: in check mode the Reconciler synthesizes the would-be result (the
same planner result a non-check run reports) without performing any write
through the External Cluster Accessor: the live cluster state is unchanged
and the write trace is empty. -/
theorem reconcile_check_mode_no_writes (live : Option Doc) (d : Doc)
    (st : ResState) (types : List MergeType) (sup : MergeType → Bool) :
    (reconcile true live d st types sup).newLive = live ∧
    (reconcile true live d st types sup).writes = [] ∧
    (reconcile true live d st types sup).result =
      (reconcile false live d st types sup).result := by
  unfold reconcile
  cases plan live d st types sup with
  | planErr ts => exact ⟨rfl, rfl, rfl⟩
  | act a => exact ⟨rfl, rfl, rfl⟩

/-- Witness for C6: instantiation at a concrete object and wait condition. -/
theorem condition_status_enum_and_satisfaction_witness :
    condStatusDefault = CondStatus.strue ∧
    condStatusChoices = [CondStatus.strue, CondStatus.sfalse, CondStatus.unknown] ∧
    (∀ s : CondStatus, s ∈ condStatusChoices) ∧
    (satisfies ⟨[⟨"Ready", CondStatus.strue, "ok"⟩]⟩
        ⟨"Ready", CondStatus.strue, none⟩ = true ↔
      ∃ c ∈ (⟨[⟨"Ready", CondStatus.strue, "ok"⟩]⟩ : KObj).conditions,
        (⟨"Ready", CondStatus.strue, none⟩ : WaitCondition).ctype = c.ctype ∧
        (⟨"Ready", CondStatus.strue, none⟩ : WaitCondition).status = c.status ∧
        ∀ r, (⟨"Ready", CondStatus.strue, none⟩ : WaitCondition).reason = some r →
          c.reason = r) :=
  condition_status_enum_and_satisfaction ⟨[⟨"Ready", CondStatus.strue, "ok"⟩]⟩
    ⟨"Ready", CondStatus.strue, none⟩
